import Mathlib

/-!
# Vofa frame encoders (Vofa.c): shallow embedding

The module keeps three file-scope variables: the UART handle `SenderHUART`, the binary frame
buffer `JustFloatDMATransmitBuffer` and the text frame buffer `FireWaterDMATransmitBuffer`.
They are the fields of `State`.  Each send operation is a function from the state, the answer
of the HAL to the readiness query and the arguments of the call to an `Outcome`: the returned
byte, the next state and the HAL calls that were made, in order.

Bytes, 16-bit and 8-bit counters are natural numbers with explicit reductions modulo
`2^16` and `2^8`.  A `float` is its 32-bit IEEE-754 word; the target is a little-endian
Cortex-M, so the object representation of a word is its four bytes, lowest first.
-/

namespace Vofa

/-! ## Constants of Vofa.c -/

/-- The frame tail `FRAM_TAIL[4] = {0x00,0x00,0x80,0x7f}`. -/
def FRAM_TAIL : List Nat := [0x00, 0x00, 0x80, 0x7f]

/-- The macro `MAX_CHANNELS`. -/
def MAX_CHANNELS : Nat := 10

/-- The macro `MAX_PREFIX_LEN`. -/
def MAX_PREFIX_LEN : Nat := 32

/-- The value of `sizeof(float)` on the target. -/
def sizeofFloat : Nat := 4

/-- The macro `FRAM_TAIL_SIZE`, that is `sizeof(FRAM_TAIL)`. -/
def FRAM_TAIL_SIZE : Nat := FRAM_TAIL.length

/-- The macro `BUFFER_SIZE_JUSTFLOAT`. -/
def BUFFER_SIZE_JUSTFLOAT : Nat := MAX_CHANNELS * sizeofFloat + FRAM_TAIL_SIZE

/-- The macro `BUFFER_SIZE_FIREWATER`. -/
def BUFFER_SIZE_FIREWATER : Nat := MAX_PREFIX_LEN + MAX_CHANNELS * sizeofFloat

/-! ## The HAL: readiness states and the calls the module makes -/

/-- The states `HAL_DMA_GetState` can report (`HAL_DMA_STATE_...` of the STM32 HAL). -/
inductive HAL_DMA_StateTypeDef
  | RESET | READY | BUSY | TIMEOUT | ERROR | ABORT
deriving DecidableEq, Repr

/-- The calls into the HAL.  A UART handle is the address it lives at; `none` is `NULL`.
`getState h` is `HAL_DMA_GetState(h->hdmatx)`.  `transmit h data size` is
`HAL_UART_Transmit_DMA(h, buffer, size)`, `data` being the `size` bytes found at `buffer`
at the time of the call. -/
inductive Event
  | getState (huart : Nat)
  | transmit (huart : Option Nat) (data : List Nat) (size : Nat)
deriving DecidableEq, Repr

/-- Whether a HAL call is a transport-send. -/
def Event.isTransmit : Event → Bool
  | .transmit _ _ _ => true
  | .getState _ => false

/-- Whether a HAL call is a readiness query. -/
def Event.isQuery : Event → Bool
  | .getState _ => true
  | .transmit _ _ _ => false

/-! ## Module state -/

/-- The file-scope variables of Vofa.c.  `JustFloatDMATransmitBuffer` holds the
`BUFFER_SIZE_JUSTFLOAT` bytes of the array.  `FireWaterDMATransmitBuffer` is the memory that
starts at the first byte of the text array: its first `BUFFER_SIZE_FIREWATER` bytes are the
array itself and the bytes after them are whatever follows the array in memory, so that a write
or a scan that leaves the array is visible. -/
structure State where
  SenderHUART : Option Nat
  JustFloatDMATransmitBuffer : List Nat
  FireWaterDMATransmitBuffer : List Nat
deriving DecidableEq, Repr

/-- The result of one call: the returned `uint8_t`, the next state, the HAL calls made. -/
structure Outcome where
  ret : Nat
  st : State
  events : List Event
deriving DecidableEq, Repr

/-- The state at program start: `SenderHUART = NULL` and both static arrays zeroed; `tail` is
the memory that follows the text array. -/
def initState (tail : List Nat) : State :=
  { SenderHUART := none
    JustFloatDMATransmitBuffer := List.replicate BUFFER_SIZE_JUSTFLOAT 0
    FireWaterDMATransmitBuffer := List.replicate BUFFER_SIZE_FIREWATER 0 ++ tail }

/-- The sizes the linker gives the two arrays: the binary array has `BUFFER_SIZE_JUSTFLOAT`
bytes and the text memory reaches at least to the end of the text array. -/
def State.wf (s : State) : Prop :=
  s.JustFloatDMATransmitBuffer.length = BUFFER_SIZE_JUSTFLOAT ∧
    BUFFER_SIZE_FIREWATER ≤ s.FireWaterDMATransmitBuffer.length

instance (s : State) : Decidable s.wf := by
  unfold State.wf; infer_instance

/-- The array part of the text memory. -/
def State.textBuffer (s : State) : List Nat :=
  s.FireWaterDMATransmitBuffer.take BUFFER_SIZE_FIREWATER

/-! ## Memory primitives -/

/-- Store `bytes` at offset `off` of the region `mem`.  Bytes that would land beyond the end of
the modelled region are not stored. -/
def writeAt (mem : List Nat) (off : Nat) (bytes : List Nat) : List Nat :=
  (mem.take off ++ bytes ++ mem.drop (off + bytes.length)).take mem.length

/-- The call `memcpy(dst + off, src, n)`: the first `n` bytes of `src` are stored at `off`. -/
def memcpy (dst : List Nat) (off : Nat) (src : List Nat) (n : Nat) : List Nat :=
  writeAt dst off (src.take n)

/-- The call `strlen(mem)`: the number of bytes before the first zero byte. -/
def strlen (mem : List Nat) : Nat :=
  (mem.takeWhile (fun b => b != 0)).length

/-- The object representation of a `float` word on the little-endian target. -/
def floatBytes (w : Nat) : List Nat :=
  [w % 256, w / 256 % 256, w / 65536 % 256, w / 16777216 % 256]

/-- The memory image of a `float` array. -/
def frameBytes (frame : List Nat) : List Nat :=
  frame.flatMap floatBytes

/-- The read `frame[i]`.  A read through `NULL` or past the end of the array is undefined in C;
here it yields the zero word. -/
def readFloat (frame : Option (List Nat)) (i : Nat) : Nat :=
  match frame with
  | some a => a.getD i 0
  | none => 0

/-- The call `snprintf(mem + off, size, ...)` for a conversion whose complete output is `text`:
at most `size - 1` characters and a terminating zero are stored (nothing when `size` is 0), and
the length of the complete output is returned. -/
def snprintf (mem : List Nat) (off size : Nat) (text : List Nat) : List Nat × Nat :=
  (if size = 0 then mem else writeAt mem off (text.take (size - 1) ++ [0]), text.length)

/-- What the formatter makes of a template and its variadic arguments: either the complete
expansion, or an error with a negative return value `-(code+1)` after producing `out`. -/
inductive RenderResult
  | ok (text : List Nat)
  | fail (code : Nat) (out : List Nat)
deriving DecidableEq, Repr

/-- The value the bounded formatter returns. -/
def RenderResult.ret : RenderResult → Int
  | .ok text => (text.length : Int)
  | .fail code _ => Int.negSucc code

/-- The characters the formatter produced. -/
def RenderResult.text : RenderResult → List Nat
  | .ok text => text
  | .fail _ out => out

/-- The call `vsnprintf(mem, size, format, args)`, `r` being the expansion of `format`
with `args`. -/
def vsnprintf (mem : List Nat) (size : Nat) (r : RenderResult) : List Nat × Int :=
  (if size = 0 then mem else writeAt mem 0 (r.text.take (size - 1) ++ [0]), r.ret)

/-! ## VOFA_Init -/

/-- The function `VOFA_Init`: stores the handle. -/
def VOFA_Init (s : State) (huart : Option Nat) : State :=
  { s with SenderHUART := huart }

/-! ## VOFA_Transmit_JustFloat -/

/-- The local `uint16_t Datasize = channel_count * sizeof(float)`. -/
def Datasize (channel_count : Nat) : Nat :=
  (channel_count * sizeofFloat) % 65536

/-- The local `uint16_t TotalSize = Datasize + FRAM_TAIL_SIZE`. -/
def TotalSize (channel_count : Nat) : Nat :=
  (Datasize channel_count + FRAM_TAIL_SIZE) % 65536

/-- The function `VOFA_Transmit_JustFloat`.  `dma` is what `HAL_DMA_GetState` answers if asked;
`frame` is `none` for a `NULL` pointer; `channel_count` is a `uint8_t`. -/
def VOFA_Transmit_JustFloat (s : State) (dma : HAL_DMA_StateTypeDef)
    (frame : Option (List Nat)) (channel_count : Nat) : Outcome :=
  match s.SenderHUART, frame with
  | some h, some fr =>
    if channel_count = 0 ∨ channel_count > MAX_CHANNELS then
      { ret := 0, st := s, events := [] }
    else if dma ≠ HAL_DMA_StateTypeDef.READY then
      { ret := 0, st := s, events := [Event.getState h] }
    else
      let b1 := memcpy s.JustFloatDMATransmitBuffer 0 (frameBytes fr) (Datasize channel_count)
      let b2 := memcpy b1 (Datasize channel_count) FRAM_TAIL FRAM_TAIL_SIZE
      { ret := 1
        st := { s with JustFloatDMATransmitBuffer := b2 }
        events := [Event.getState h,
          Event.transmit (some h) (b2.take (TotalSize channel_count)) (TotalSize channel_count)] }
  | _, _ => { ret := 0, st := s, events := [] }

/-! ## VOFA_Transmit_FireWater -/

/-- The function `VOFA_Transmit_FireWater`.  `format` is `none` for `NULL`, else the characters
of the template; `r` is the expansion of the template with the variadic arguments. -/
def VOFA_Transmit_FireWater (s : State) (dma : HAL_DMA_StateTypeDef)
    (format : Option (List Nat)) (r : RenderResult) : Outcome :=
  match s.SenderHUART, format with
  | some h, some f =>
    if f.headD 0 = 0 then
      { ret := 0, st := s, events := [] }
    else if dma ≠ HAL_DMA_StateTypeDef.READY then
      { ret := 0, st := s, events := [Event.getState h] }
    else
      let v := vsnprintf s.FireWaterDMATransmitBuffer BUFFER_SIZE_FIREWATER r
      let s1 : State := { s with FireWaterDMATransmitBuffer := v.1 }
      if v.2 < 0 ∨ v.2 ≥ (BUFFER_SIZE_FIREWATER : Int) then
        { ret := 0, st := s1, events := [Event.getState h] }
      else
        { ret := 1, st := s1
          events := [Event.getState h,
            Event.transmit (some h) (v.1.take (v.2.toNat % 65536)) (v.2.toNat % 65536)] }
  | _, _ => { ret := 0, st := s, events := [] }

/-! ## VOFA_Transmit_FireWater_Descriptor -/

/-- The locals of `VOFA_Transmit_FireWater_Descriptor` while the line is built: the text memory,
the offset of `pBuffer` from the start of the array, the two `uint8_t` counters, and the list
of the regions `(offset, size)` handed to `snprintf` so far. -/
structure Cursor where
  mem : List Nat
  pBuffer : Nat
  RemainingSize : Nat
  WrittenSize : Nat
  renders : List (Nat × Nat)
deriving DecidableEq, Repr

/-- One rendering step: `WrittenSize = snprintf(pBuffer, RemainingSize, ...)`, then
`pBuffer += WrittenSize; RemainingSize -= WrittenSize;` in `uint8_t` arithmetic. -/
def render (c : Cursor) (text : List Nat) : Cursor :=
  let r := snprintf c.mem c.pBuffer c.RemainingSize text
  let w := r.2 % 256
  { mem := r.1
    pBuffer := c.pBuffer + w
    RemainingSize := (c.RemainingSize + 256 - w) % 256
    WrittenSize := w
    renders := c.renders ++ [(c.pBuffer, c.RemainingSize)] }

/-- The expansion of the format of channel `i`: the value in `%f` notation, then a newline for
the last channel and a comma for every other one.  `fmt` is the `%f` conversion of the C
library. -/
def channelText (fmt : Nat → List Nat) (frame : Option (List Nat)) (channel_count i : Nat) :
    List Nat :=
  if i = channel_count - 1 then fmt (readFloat frame i) ++ [10]
  else fmt (readFloat frame i) ++ [44]

/-- The `for` loop over the channels, started at index `i` with `n = channel_count - i`
iterations left. -/
def channelLoop (fmt : Nat → List Nat) (frame : Option (List Nat)) (channel_count : Nat) :
    Nat → Nat → Cursor → Cursor
  | 0, _, c => c
  | n + 1, i, c =>
    if c.RemainingSize ≤ 1 then c
    else channelLoop fmt frame channel_count n (i + 1)
      (render c (channelText fmt frame channel_count i))

/-- The locals at entry: `pBuffer = FireWaterDMATransmitBuffer`,
`uint8_t RemainingSize = BUFFER_SIZE_FIREWATER`, `WrittenSize = 0`. -/
def initCursor (mem : List Nat) : Cursor :=
  { mem := mem, pBuffer := 0, RemainingSize := BUFFER_SIZE_FIREWATER % 256, WrittenSize := 0,
    renders := [] }

/-- The prefix stage: rendered with `%s` when `pfx != NULL && pfx[0] != 0`.  `pfx` is `none`
for a `NULL` pointer, else the characters of the string. -/
def renderPrefix (c : Cursor) (pfx : Option (List Nat)) : Cursor :=
  match pfx with
  | some p => if p.headD 0 ≠ 0 then render c p else c
  | none => c

/-- The line building part of `VOFA_Transmit_FireWater_Descriptor`: the optional prefix, then
the loop over the channels. -/
def buildLine (fmt : Nat → List Nat) (mem : List Nat) (pfx : Option (List Nat))
    (frame : Option (List Nat)) (channel_count : Nat) : Cursor :=
  channelLoop fmt frame channel_count channel_count 0 (renderPrefix (initCursor mem) pfx)

/-- The function `VOFA_Transmit_FireWater_Descriptor`.  It takes no readiness answer because it
never asks for one. -/
def VOFA_Transmit_FireWater_Descriptor (fmt : Nat → List Nat) (s : State)
    (pfx : Option (List Nat)) (frame : Option (List Nat)) (channel_count : Nat) : Outcome :=
  let c := buildLine fmt s.FireWaterDMATransmitBuffer pfx frame channel_count
  let total := strlen c.mem % 65536
  { ret := 1
    st := { s with FireWaterDMATransmitBuffer := c.mem }
    events := [Event.transmit s.SenderHUART (c.mem.take total) total] }

/-! ## A concrete `%f` conversion -/

/-- Decimal digits of `n` as ASCII bytes; the first argument bounds the number of digits. -/
def decDigits : Nat → Nat → List Nat
  | 0, _ => []
  | f + 1, n => if n < 10 then [48 + n] else decDigits f (n / 10) ++ [48 + n % 10]

/-- The value `num / den` rounded to an integer, ties to even. -/
def roundHalfEven (num den : Nat) : Nat :=
  let q := num / den
  let r := num % den
  if 2 * r < den then q
  else if 2 * r > den then q + 1
  else if q % 2 = 0 then q else q + 1

/-- The conversion `%f` of the C library applied to a `float` word (promoted to `double`
without change of value): sign, integer part, a point and six decimals of the exactly rounded
value; `inf` and `nan` for the words whose exponent field is all ones. -/
def fmtF (w : Nat) : List Nat :=
  let sign := w / 2 ^ 31 % 2
  let e := w / 2 ^ 23 % 256
  let m := w % 2 ^ 23
  let sgn : List Nat := if sign = 1 then [45] else []
  if e = 255 then
    sgn ++ (if m = 0 then [105, 110, 102] else [110, 97, 110])
  else
    let sig := if e = 0 then m else 2 ^ 23 + m
    let k := if e = 0 then 1 else e
    let q := if 150 ≤ k then sig * 2 ^ (k - 150) * 10 ^ 6
             else roundHalfEven (sig * 10 ^ 6) (2 ^ (150 - k))
    let ip := q / 10 ^ 6
    let fp := q % 10 ^ 6
    sgn ++ decDigits (ip + 1) ip ++ [46] ++ (decDigits 7 (10 ^ 6 + fp)).drop 1

/-! ## The intended text line -/

/-- The channel part of the intended line: `v0,v1,...,v_{n-1}` and a newline, each value in
the notation `fmt`, a comma after every value but the last. -/
def lineText (fmt : Nat → List Nat) : List Nat → List Nat
  | [] => []
  | [v] => fmt v ++ [10]
  | v :: w :: vs => fmt v ++ [44] ++ lineText fmt (w :: vs)

/-- The characters of an optional prefix: none for `NULL`. -/
def pfxText (pfx : Option (List Nat)) : List Nat :=
  match pfx with
  | some p => p
  | none => []

/-! ## Reachable module states -/

/-- The text memory reaches to the end of the array and the array holds a zero byte. -/
def textOk (mem : List Nat) : Prop :=
  BUFFER_SIZE_FIREWATER ≤ mem.length ∧ 0 ∈ mem.take BUFFER_SIZE_FIREWATER

/-- The cursor is either inside the array, offset and remaining size adding up to the
capacity, or has left the array; the array holds a zero byte. -/
def Cursor.ok (c : Cursor) : Prop :=
  textOk c.mem ∧
    (c.pBuffer + c.RemainingSize = BUFFER_SIZE_FIREWATER ∨ BUFFER_SIZE_FIREWATER < c.pBuffer)

/-- The module states the program can be in: the start state, and every state one of the four
operations of the module leaves behind, whatever the arguments and the HAL answers.  `fmt` is
the `%f` conversion of the C library. -/
inductive Reachable (fmt : Nat → List Nat) : State → Prop
  | start (tail : List Nat) : Reachable fmt (initState tail)
  | init (s : State) (huart : Option Nat) : Reachable fmt s → Reachable fmt (VOFA_Init s huart)
  | justFloat (s : State) (dma : HAL_DMA_StateTypeDef) (frame : Option (List Nat)) (n : Nat) :
      Reachable fmt s → Reachable fmt (VOFA_Transmit_JustFloat s dma frame n).st
  | fireWater (s : State) (dma : HAL_DMA_StateTypeDef) (format : Option (List Nat))
      (r : RenderResult) :
      Reachable fmt s → Reachable fmt (VOFA_Transmit_FireWater s dma format r).st
  | descriptor (s : State) (pfx : Option (List Nat)) (frame : Option (List Nat)) (n : Nat) :
      Reachable fmt s → Reachable fmt (VOFA_Transmit_FireWater_Descriptor fmt s pfx frame n).st

/-- Two text memories hold the same text: they agree on an initial part, inside the array,
that contains a zero byte. -/
def sameText (m1 m2 : List Nat) : Prop :=
  ∃ k, k ≤ BUFFER_SIZE_FIREWATER ∧ m1.take k = m2.take k ∧ 0 ∈ m1.take k

/-- Two runs of the line builder are in step: same cursor offset and remaining size, both
memories reaching to the end of the array, the cursor inside the array or past its end. -/
def Cursor.paired (c1 c2 : Cursor) : Prop :=
  c1.pBuffer = c2.pBuffer ∧ c1.RemainingSize = c2.RemainingSize ∧
    BUFFER_SIZE_FIREWATER ≤ c1.mem.length ∧ BUFFER_SIZE_FIREWATER ≤ c2.mem.length ∧
    (c1.pBuffer + c1.RemainingSize = BUFFER_SIZE_FIREWATER ∨ BUFFER_SIZE_FIREWATER < c1.pBuffer)

/-- The structured encoder renders something: the prefix is present and not empty, or there is
at least one channel. -/
def rendersSomething (pfx : Option (List Nat)) (channel_count : Nat) : Prop :=
  (∃ p, pfx = some p ∧ p.headD 0 ≠ 0) ∨ 1 ≤ channel_count

/-! ## The binary frame: copy regions and IEEE-754 fields -/

/-- The destination regions `(offset, length)` of the two `memcpy` calls of
`VOFA_Transmit_JustFloat` inside `JustFloatDMATransmitBuffer`. -/
def copyRegions (channel_count : Nat) : List (Nat × Nat) :=
  [(0, Datasize channel_count), (Datasize channel_count, FRAM_TAIL_SIZE)]

/-- The 32-bit word a little-endian byte sequence stands for. -/
def wordOfBytes : List Nat → Nat
  | [] => 0
  | b :: bs => b + 256 * wordOfBytes bs

/-- The sign bit of an IEEE-754 single-precision word (bit 31). -/
def signField (w : Nat) : Nat := w / 2 ^ 31 % 2

/-- The exponent field of an IEEE-754 single-precision word (bits 30 to 23). -/
def exponentField (w : Nat) : Nat := w / 2 ^ 23 % 256

/-- The mantissa field of an IEEE-754 single-precision word (bits 22 to 0). -/
def mantissaField (w : Nat) : Nat := w % 2 ^ 23

/-- The 4-byte-aligned group number `i` of a byte sequence. -/
def group4 (data : List Nat) (i : Nat) : List Nat :=
  (data.drop (4 * i)).take 4

/-- The bytes of a string literal. -/
def ascii (s : String) : List Nat :=
  s.toList.map Char.toNat

/-! ## Facts about the memory primitives -/

theorem length_writeAt (mem : List Nat) (off : Nat) (bytes : List Nat) :
    (writeAt mem off bytes).length = mem.length := by
  simp only [writeAt, List.length_take, List.length_append, List.length_drop]
  omega

theorem writeAt_eq (mem : List Nat) (off : Nat) (bytes : List Nat)
    (h : off + bytes.length ≤ mem.length) :
    writeAt mem off bytes = mem.take off ++ bytes ++ mem.drop (off + bytes.length) := by
  unfold writeAt
  apply List.take_of_length_le
  simp only [List.length_take, List.length_append, List.length_drop]
  omega

theorem take_writeAt (mem : List Nat) (off : Nat) (bytes : List Nat)
    (h : off + bytes.length ≤ mem.length) :
    (writeAt mem off bytes).take (off + bytes.length) = mem.take off ++ bytes := by
  rw [writeAt_eq mem off bytes h]
  apply List.take_left'
  simp only [List.length_take, List.length_append]
  omega

theorem writeAt_of_length_le (mem : List Nat) (off : Nat) (bytes : List Nat)
    (h : mem.length ≤ off) : writeAt mem off bytes = mem := by
  unfold writeAt
  rw [List.take_of_length_le h, List.append_assoc]
  exact List.take_left' rfl

theorem take_writeAt_of_le (mem : List Nat) (off : Nat) (bytes : List Nat) (k : Nat)
    (h : k ≤ off) : (writeAt mem off bytes).take k = mem.take k := by
  unfold writeAt
  rw [List.take_take]
  by_cases hk : k ≤ mem.length
  · rw [Nat.min_eq_left hk, List.append_assoc, List.take_append_eq_append_take]
    simp only [List.take_take, List.length_take]
    have h1 : k - min off mem.length = 0 := by omega
    rw [h1, Nat.min_eq_left h]
    simp
  · have h2 : mem.length ≤ off := by omega
    have h3 : mem.length ≤ k := by omega
    rw [Nat.min_eq_right h3, List.take_of_length_le h2, List.append_assoc,
      List.take_left' rfl, List.take_of_length_le h3]

theorem length_frameBytes (frame : List Nat) :
    (frameBytes frame).length = 4 * frame.length := by
  induction frame with
  | nil => rfl
  | cons w ws ih =>
    simp only [frameBytes, List.flatMap_cons, List.length_append, List.length_cons] at ih ⊢
    simp only [floatBytes, List.length_cons, List.length_nil]
    omega

theorem take_frameBytes (frame : List Nat) (n : Nat) :
    (frameBytes frame).take (4 * n) = frameBytes (frame.take n) := by
  induction frame generalizing n with
  | nil => simp [frameBytes]
  | cons w ws ih =>
    cases n with
    | zero => simp [frameBytes]
    | succ m =>
      have h4 : 4 * (m + 1) = 4 * m + 4 := by ring
      have h := ih m
      simp only [frameBytes, List.flatMap_cons, List.take_succ_cons] at h ⊢
      rw [h4, ← h]
      simp [floatBytes]

theorem Datasize_eq (n : Nat) (h : n ≤ 10) : Datasize n = 4 * n := by
  unfold Datasize sizeofFloat
  omega

theorem TotalSize_eq (n : Nat) (h : n ≤ 10) : TotalSize n = 4 * n + 4 := by
  unfold TotalSize
  rw [Datasize_eq n h]
  have : FRAM_TAIL_SIZE = 4 := rfl
  omega

/-- The binary buffer after the two copies of an accepted call starts with the payload and
the tail. -/
theorem justFloat_buffer (buf fr : List Nat) (n : Nat) (hbuf : buf.length = 44)
    (h10 : n ≤ 10) (hfr : n ≤ fr.length) :
    (memcpy (memcpy buf 0 (frameBytes fr) (4 * n)) (4 * n) FRAM_TAIL FRAM_TAIL_SIZE).take
        (4 * n + 4) = frameBytes (fr.take n) ++ FRAM_TAIL := by
  have hl : (frameBytes (fr.take n)).length = 4 * n := by
    rw [length_frameBytes, List.length_take, Nat.min_eq_left hfr]
  have ht : FRAM_TAIL.take FRAM_TAIL_SIZE = FRAM_TAIL := rfl
  have htl : FRAM_TAIL.length = 4 := rfl
  unfold memcpy
  rw [take_frameBytes, ht]
  have hb1 : (writeAt buf 0 (frameBytes (fr.take n))).length = 44 := by
    rw [length_writeAt, hbuf]
  have e1 : (writeAt buf 0 (frameBytes (fr.take n))).take (4 * n) = frameBytes (fr.take n) := by
    have := take_writeAt buf 0 (frameBytes (fr.take n)) (by rw [hl, hbuf]; omega)
    rw [hl] at this
    simpa using this
  have e2 := take_writeAt (writeAt buf 0 (frameBytes (fr.take n))) (4 * n) FRAM_TAIL
    (by rw [hb1, htl]; omega)
  rw [htl, e1] at e2
  exact e2

/-- C1: with an initialised handle, a ready transport, a non-null array holding at least
`n` values and `1 ≤ n ≤ 10`, `VOFA_Transmit_JustFloat` returns 1 and, after the readiness
query, requests exactly one transmission: `4*n+4` bytes, the representations of the first `n`
values in order followed by `00 00 80 7F`, which are therefore its last four bytes. -/
theorem justFloat_sends_payload_then_tail (s : State) (h : Nat) (fr : List Nat) (n : Nat)
    (hwf : s.wf) (hinit : s.SenderHUART = some h) (h1 : 1 ≤ n) (h10 : n ≤ 10)
    (hfr : n ≤ fr.length) :
    (VOFA_Transmit_JustFloat s HAL_DMA_StateTypeDef.READY (some fr) n).ret = 1 ∧
    (VOFA_Transmit_JustFloat s HAL_DMA_StateTypeDef.READY (some fr) n).events =
      [Event.getState h,
        Event.transmit (some h) (frameBytes (fr.take n) ++ [0x00, 0x00, 0x80, 0x7F])
          (4 * n + 4)] ∧
    (frameBytes (fr.take n) ++ [0x00, 0x00, 0x80, 0x7F]).length = 4 * n + 4 ∧
    (frameBytes (fr.take n) ++ [0x00, 0x00, 0x80, 0x7F]).drop (4 * n) =
      [0x00, 0x00, 0x80, 0x7F] := by
  have hl : (frameBytes (fr.take n)).length = 4 * n := by
    rw [length_frameBytes, List.length_take, Nat.min_eq_left hfr]
  have hc : ¬ (n = 0 ∨ n > MAX_CHANNELS) := by
    unfold MAX_CHANNELS
    omega
  have hb := justFloat_buffer s.JustFloatDMATransmitBuffer fr n hwf.1 h10 hfr
  refine ⟨?_, ?_, ?_, ?_⟩
  · simp only [VOFA_Transmit_JustFloat, hinit, if_neg hc, ne_eq, not_true_eq_false, if_false]
  · simp only [VOFA_Transmit_JustFloat, hinit, if_neg hc, ne_eq, not_true_eq_false, if_false,
      Datasize_eq n h10, TotalSize_eq n h10, hb]
    rfl
  · rw [List.length_append, hl]
    rfl
  · exact List.drop_left' hl

/-- C1, instance: three channels `1.0, 2.5, -3.25` on handle 1. -/
theorem justFloat_sends_payload_then_tail_witness :
    (VOFA_Transmit_JustFloat (VOFA_Init (initState []) (some 1)) HAL_DMA_StateTypeDef.READY
        (some [0x3F800000, 0x40200000, 0xC0500000]) 3).ret = 1 ∧
    (VOFA_Transmit_JustFloat (VOFA_Init (initState []) (some 1)) HAL_DMA_StateTypeDef.READY
        (some [0x3F800000, 0x40200000, 0xC0500000]) 3).events =
      [Event.getState 1,
        Event.transmit (some 1)
          (frameBytes ([0x3F800000, 0x40200000, 0xC0500000].take 3) ++ [0x00, 0x00, 0x80, 0x7F])
          (4 * 3 + 4)] ∧
    (frameBytes ([0x3F800000, 0x40200000, 0xC0500000].take 3) ++
        [0x00, 0x00, 0x80, 0x7F]).length = 4 * 3 + 4 ∧
    (frameBytes ([0x3F800000, 0x40200000, 0xC0500000].take 3) ++
        [0x00, 0x00, 0x80, 0x7F]).drop (4 * 3) = [0x00, 0x00, 0x80, 0x7F] :=
  justFloat_sends_payload_then_tail (VOFA_Init (initState []) (some 1)) 1
    [0x3F800000, 0x40200000, 0xC0500000] 3 (by decide) rfl (by decide) (by decide) (by decide)

/-- C2: `VOFA_Transmit_JustFloat` returns 1 exactly when the handle is set, the array is
non-null, `1 ≤ count ≤ 10` and the transport reports ready.  In every other case it returns 0,
leaves the whole module state (so the binary buffer) unchanged and makes no transport-send; on
a validation failure it makes no HAL call at all, so no readiness query either. -/
theorem justFloat_accepts_iff (s : State) (dma : HAL_DMA_StateTypeDef)
    (frame : Option (List Nat)) (n : Nat) :
    ((VOFA_Transmit_JustFloat s dma frame n).ret = 1 ↔
      (s.SenderHUART ≠ none ∧ frame ≠ none ∧ 1 ≤ n ∧ n ≤ 10 ∧
        dma = HAL_DMA_StateTypeDef.READY)) ∧
    (¬ (s.SenderHUART ≠ none ∧ frame ≠ none ∧ 1 ≤ n ∧ n ≤ 10 ∧
        dma = HAL_DMA_StateTypeDef.READY) →
      (VOFA_Transmit_JustFloat s dma frame n).ret = 0 ∧
      (VOFA_Transmit_JustFloat s dma frame n).st = s ∧
      (VOFA_Transmit_JustFloat s dma frame n).st.JustFloatDMATransmitBuffer =
        s.JustFloatDMATransmitBuffer ∧
      (VOFA_Transmit_JustFloat s dma frame n).events.filter Event.isTransmit = []) ∧
    ((s.SenderHUART = none ∨ frame = none ∨ n = 0 ∨ n > 10) →
      (VOFA_Transmit_JustFloat s dma frame n).events = []) := by
  cases hs : s.SenderHUART with
  | none => simp [VOFA_Transmit_JustFloat, hs]
  | some h =>
    cases frame with
    | none => simp [VOFA_Transmit_JustFloat, hs]
    | some fr =>
      by_cases hc : n = 0 ∨ n > MAX_CHANNELS
      · have hc2 : ¬ (1 ≤ n ∧ n ≤ 10 ∧ dma = HAL_DMA_StateTypeDef.READY) := by
          unfold MAX_CHANNELS at hc
          omega
        simp [VOFA_Transmit_JustFloat, hs, hc, hc2]
      · have hc1 : 1 ≤ n ∧ n ≤ 10 := by
          unfold MAX_CHANNELS at hc
          omega
        have hc3 : ¬ (n = 0 ∨ n > 10) := by omega
        by_cases hd : dma = HAL_DMA_StateTypeDef.READY
        · simp [VOFA_Transmit_JustFloat, hs, hc, hc1, hc3, hd]
        · simp [VOFA_Transmit_JustFloat, hs, hc, hc1, hc3, hd, Event.isTransmit]

/-! ## The structured text encoder when the line fits -/

theorem buffer_size_firewater : BUFFER_SIZE_FIREWATER = 72 := rfl

theorem length_lineText (fmt : Nat → List Nat) (vs : List Nat) :
    (lineText fmt vs).length = (vs.map (fun v => (fmt v).length + 1)).sum := by
  induction vs with
  | nil => rfl
  | cons v vs ih =>
    cases vs with
    | nil => simp [lineText]
    | cons w ws =>
      simp only [lineText, List.length_append, List.length_cons, List.length_nil, List.map_cons,
        List.sum_cons] at ih ⊢
      omega

theorem zero_not_mem_lineText (fmt : Nat → List Nat) (vs : List Nat)
    (h : ∀ v ∈ vs, 0 ∉ fmt v) : 0 ∉ lineText fmt vs := by
  induction vs with
  | nil => simp [lineText]
  | cons v vs ih =>
    have hv : 0 ∉ fmt v := h v (List.mem_cons_self v vs)
    have hvs : ∀ u ∈ vs, 0 ∉ fmt u := fun u hu => h u (List.mem_cons_of_mem v hu)
    cases vs with
    | nil => simp [lineText, hv]
    | cons w ws =>
      have := ih hvs
      simp only [lineText, List.mem_append, List.mem_singleton, not_or]
      exact ⟨⟨hv, by decide⟩, this⟩

theorem strlen_append_zero (text rest : List Nat) (h : 0 ∉ text) :
    strlen (text ++ 0 :: rest) = text.length := by
  unfold strlen
  induction text with
  | nil => simp
  | cons a t ih =>
    have ha : a ≠ 0 := fun e => h (e ▸ List.mem_cons_self a t)
    have ht : 0 ∉ t := fun m => h (List.mem_cons_of_mem a m)
    simp [List.takeWhile_cons, ha, ih ht]

/-- A rendering step whose text and terminator fit in the remaining region: the text is stored
whole, followed by a zero, and both counters move by its length. -/
theorem render_fits (c : Cursor) (text : List Nat)
    (hmem : c.pBuffer + c.RemainingSize ≤ c.mem.length) (hfit : text.length < c.RemainingSize)
    (hrem : c.RemainingSize < 256) :
    (render c text).mem =
        c.mem.take c.pBuffer ++ text ++ 0 :: c.mem.drop (c.pBuffer + (text.length + 1)) ∧
      (render c text).pBuffer = c.pBuffer + text.length ∧
      (render c text).RemainingSize = c.RemainingSize - text.length := by
  have h0 : c.RemainingSize ≠ 0 := by omega
  have ht : text.take (c.RemainingSize - 1) = text := List.take_of_length_le (by omega)
  have hw : text.length % 256 = text.length := Nat.mod_eq_of_lt (by omega)
  refine ⟨?_, ?_, ?_⟩
  · simp only [render, snprintf, if_neg h0, ht]
    rw [writeAt_eq _ _ _ (by simp only [List.length_append, List.length_cons, List.length_nil]; omega)]
    simp [List.append_assoc]
  · simp only [render, snprintf, hw]
  · simp only [render, snprintf, hw]
    omega

theorem length_render_mem (c : Cursor) (text : List Nat) :
    (render c text).mem.length = c.mem.length := by
  simp only [render, snprintf]
  split
  · rfl
  · exact length_writeAt _ _ _

theorem readFloat_of_drop (frame : List Nat) (i v : Nat) (vs : List Nat)
    (h : frame.drop i = v :: vs) : readFloat (some frame) i = v := by
  have hi : i < frame.length := by
    by_contra hc
    rw [List.drop_of_length_le (by omega)] at h
    exact List.noConfusion h
  have h2 : frame.drop i = frame[i] :: frame.drop (i + 1) := List.drop_eq_getElem_cons hi
  rw [h2] at h
  have h3 : frame[i] = v := (List.cons.inj h).1
  simp only [readFloat, List.getD_eq_getElem?_getD, List.getElem?_eq_getElem hi,
    Option.getD_some, h3]

/-- The loop over the channels when everything that is left to write fits: the memory ends up
holding what was before the cursor, then the rest of the line, then a zero. -/
theorem channelLoop_fits (fmt : Nat → List Nat) (frame : List Nat) :
    ∀ (vs : List Nat) (i : Nat) (c : Cursor), vs ≠ [] → frame.drop i = vs →
      c.pBuffer + c.RemainingSize = 72 → 72 ≤ c.mem.length →
      c.pBuffer + (lineText fmt vs).length < 72 →
      ∃ rest, (channelLoop fmt (some frame) frame.length vs.length i c).mem =
        c.mem.take c.pBuffer ++ lineText fmt vs ++ 0 :: rest := by
  intro vs
  induction vs with
  | nil => intro i c h; exact absurd rfl h
  | cons v vs ih =>
    intro i c _ hdrop hinv hlen hfit
    have hread := readFloat_of_drop frame i v vs hdrop
    have hlenvs : (v :: vs).length = frame.length - i := by
      rw [← hdrop, List.length_drop]
    have hdrop1 : frame.drop (i + 1) = vs := by
      have : frame.drop (i + 1) = (frame.drop i).drop 1 := by
        rw [List.drop_drop, Nat.add_comm]
      rw [this, hdrop]
      rfl
    cases vs with
    | nil =>
      have hi : i = frame.length - 1 := by
        simp only [List.length_cons, List.length_nil] at hlenvs
        omega
      have htext : channelText fmt (some frame) frame.length i = fmt v ++ [10] := by
        simp only [channelText, if_pos hi, hread]
      have hl : (lineText fmt [v]).length = (fmt v ++ [10]).length := rfl
      have hrem : ¬ c.RemainingSize ≤ 1 := by
        simp only [List.length_append, List.length_cons, List.length_nil] at hl
        omega
      obtain ⟨hm, _, _⟩ := render_fits c (fmt v ++ [10]) (by omega) (by omega) (by omega)
      refine ⟨c.mem.drop (c.pBuffer + ((fmt v ++ [10]).length + 1)), ?_⟩
      simp only [List.length_cons, List.length_nil, channelLoop, if_neg hrem, htext]
      exact hm
    | cons w ws =>
      have hi : ¬ i = frame.length - 1 := by
        simp only [List.length_cons] at hlenvs
        omega
      have htext : channelText fmt (some frame) frame.length i = fmt v ++ [44] := by
        simp only [channelText, if_neg hi, hread]
      have hl : (lineText fmt (v :: w :: ws)).length =
          (fmt v ++ [44]).length + (lineText fmt (w :: ws)).length := by
        simp only [lineText, List.length_append]
      have hrem : ¬ c.RemainingSize ≤ 1 := by
        simp only [List.length_append, List.length_cons, List.length_nil] at hl
        omega
      obtain ⟨hm, hp, hr⟩ := render_fits c (fmt v ++ [44]) (by omega) (by omega) (by omega)
      have hlen1 := length_render_mem c (fmt v ++ [44])
      obtain ⟨rest, hrest⟩ := ih (i + 1) (render c (fmt v ++ [44])) (List.cons_ne_nil w ws) hdrop1
        (by omega) (by omega) (by omega)
      have htake : (render c (fmt v ++ [44])).mem.take (render c (fmt v ++ [44])).pBuffer =
          c.mem.take c.pBuffer ++ (fmt v ++ [44]) := by
        rw [hm, hp]
        apply List.take_left'
        simp only [List.length_append, List.length_take]
        omega
      refine ⟨rest, ?_⟩
      have hstep : channelLoop fmt (some frame) frame.length (v :: w :: ws).length i c =
          channelLoop fmt (some frame) frame.length (w :: ws).length (i + 1)
            (render c (fmt v ++ [44])) := by
        simp only [List.length_cons, channelLoop, if_neg hrem, htext]
      rw [hstep, hrest, htake]
      simp only [lineText, List.append_assoc]

/-- The prefix stage when the prefix and its terminator fit: the memory starts with the
prefix and the counters have moved by its length. -/
theorem renderPrefix_fits (mem : List Nat) (pfx : Option (List Nat)) (hlen : 72 ≤ mem.length)
    (hp : 0 ∉ pfxText pfx) (hfit : (pfxText pfx).length < 72) :
    (renderPrefix (initCursor mem) pfx).pBuffer = (pfxText pfx).length ∧
    (renderPrefix (initCursor mem) pfx).RemainingSize = 72 - (pfxText pfx).length ∧
    (renderPrefix (initCursor mem) pfx).mem.length = mem.length ∧
    (renderPrefix (initCursor mem) pfx).mem.take (pfxText pfx).length = pfxText pfx ∧
    ((pfxText pfx) ≠ [] → ∃ rest,
      (renderPrefix (initCursor mem) pfx).mem = pfxText pfx ++ 0 :: rest) := by
  have h0 : (initCursor mem).pBuffer = 0 := rfl
  have h1 : (initCursor mem).RemainingSize = 72 := rfl
  have h2 : (initCursor mem).mem = mem := rfl
  cases pfx with
  | none => simp [renderPrefix, pfxText, h0, h1, h2]
  | some p =>
    cases p with
    | nil => simp [renderPrefix, pfxText, h0, h1, h2]
    | cons a t =>
      have ha : a ≠ 0 := fun e => hp (by simp [pfxText, e])
      have hfit2 : (a :: t).length < 72 := hfit
      obtain ⟨hm, hpb, hr⟩ := render_fits (initCursor mem) (a :: t)
        (by rw [h0, h1, h2]; omega) (by rw [h1]; exact hfit2) (by rw [h1]; omega)
      have hl := length_render_mem (initCursor mem) (a :: t)
      rw [h0, h2] at hm
      rw [h0] at hpb
      rw [h1] at hr
      rw [h2] at hl
      have hx : renderPrefix (initCursor mem) (some (a :: t)) =
          render (initCursor mem) (a :: t) := by
        simp [renderPrefix, ha]
      simp only [hx, pfxText]
      refine ⟨by omega, hr, hl, ?_, ?_⟩
      · rw [hm]
        simp
      · intro _
        refine ⟨mem.drop (0 + ((a :: t).length + 1)), ?_⟩
        rw [hm]
        simp

/-- C3: for a null, empty or non-empty prefix and an array of `n ≥ 1` values, if the prefix
length plus the sum of the rendering lengths plus one per value is below the text buffer
capacity, `VOFA_Transmit_FireWater_Descriptor` returns 1 and requests one transmission of
exactly prefix, values separated by commas and a final newline, with that length, whatever the
text memory held before. -/
theorem descriptor_sends_full_line (fmt : Nat → List Nat) (s : State)
    (pfx : Option (List Nat)) (frame : List Nat) (hwf : s.wf) (hn : 1 ≤ frame.length)
    (hp : 0 ∉ pfxText pfx) (hv : ∀ v ∈ frame, 0 ∉ fmt v)
    (hfit : (pfxText pfx).length + (frame.map (fun v => (fmt v).length + 1)).sum <
      BUFFER_SIZE_FIREWATER) :
    (VOFA_Transmit_FireWater_Descriptor fmt s pfx (some frame) frame.length).ret = 1 ∧
    (VOFA_Transmit_FireWater_Descriptor fmt s pfx (some frame) frame.length).events =
      [Event.transmit s.SenderHUART (pfxText pfx ++ lineText fmt frame)
        (pfxText pfx ++ lineText fmt frame).length] := by
  rw [buffer_size_firewater, ← length_lineText] at hfit
  have hmem : 72 ≤ s.FireWaterDMATransmitBuffer.length := hwf.2
  obtain ⟨hpb, hr, hl, ht, _⟩ :=
    renderPrefix_fits s.FireWaterDMATransmitBuffer pfx hmem hp (by omega)
  have hne : frame ≠ [] := by
    intro e
    rw [e] at hn
    exact absurd hn (by decide)
  obtain ⟨rest, hrest⟩ := channelLoop_fits fmt frame frame 0
    (renderPrefix (initCursor s.FireWaterDMATransmitBuffer) pfx) hne rfl
    (by rw [hpb, hr]; omega) (by rw [hl]; exact hmem) (by rw [hpb]; exact hfit)
  rw [hpb, ht] at hrest
  have hz : 0 ∉ pfxText pfx ++ lineText fmt frame := by
    rw [List.mem_append, not_or]
    exact ⟨hp, zero_not_mem_lineText fmt frame hv⟩
  have hs := strlen_append_zero (pfxText pfx ++ lineText fmt frame) rest hz
  have hmod : (pfxText pfx ++ lineText fmt frame).length % 65536 =
      (pfxText pfx ++ lineText fmt frame).length := by
    apply Nat.mod_eq_of_lt
    rw [List.length_append]
    omega
  refine ⟨rfl, ?_⟩
  simp only [VOFA_Transmit_FireWater_Descriptor, buildLine, hrest, hs, hmod]
  rw [List.take_left' rfl]

/-- C3, instance: prefix `ch:` and the values `1.0, 2.5, -3.25` under the concrete `%f`
conversion give the 31 bytes `ch:1.000000,2.500000,-3.250000` and a newline. -/
theorem descriptor_sends_full_line_witness :
    pfxText (some (ascii "ch:")) ++ lineText fmtF [0x3F800000, 0x40200000, 0xC0500000] =
      ascii "ch:1.000000,2.500000,-3.250000\n" ∧
    (ascii "ch:1.000000,2.500000,-3.250000\n").length = 31 ∧
    (VOFA_Transmit_FireWater_Descriptor fmtF (initState []) (some (ascii "ch:"))
      (some [0x3F800000, 0x40200000, 0xC0500000])
      [0x3F800000, 0x40200000, 0xC0500000].length).ret = 1 ∧
    (VOFA_Transmit_FireWater_Descriptor fmtF (initState []) (some (ascii "ch:"))
      (some [0x3F800000, 0x40200000, 0xC0500000])
      [0x3F800000, 0x40200000, 0xC0500000].length).events =
      [Event.transmit (initState []).SenderHUART
        (pfxText (some (ascii "ch:")) ++ lineText fmtF [0x3F800000, 0x40200000, 0xC0500000])
        (pfxText (some (ascii "ch:")) ++
          lineText fmtF [0x3F800000, 0x40200000, 0xC0500000]).length] :=
  ⟨by decide, by decide,
    descriptor_sends_full_line fmtF (initState []) (some (ascii "ch:"))
      [0x3F800000, 0x40200000, 0xC0500000] (by decide) (by decide) (by decide) (by decide)
      (by decide)⟩

/-! ## The free-form text encoder -/

theorem ret_nonneg_iff (r : RenderResult) : 0 ≤ r.ret ↔ ∃ text, r = RenderResult.ok text := by
  cases r with
  | ok text => simp [RenderResult.ret]
  | fail code out =>
    simp only [RenderResult.ret, reduceCtorEq, exists_false, iff_false, not_le]
    exact Int.negSucc_lt_zero code

theorem fireWater_no_handle (s : State) (dma : HAL_DMA_StateTypeDef)
    (format : Option (List Nat)) (r : RenderResult) (hs : s.SenderHUART = none) :
    VOFA_Transmit_FireWater s dma format r = { ret := 0, st := s, events := [] } := by
  simp only [VOFA_Transmit_FireWater, hs]

theorem fireWater_no_format (s : State) (dma : HAL_DMA_StateTypeDef) (r : RenderResult) :
    VOFA_Transmit_FireWater s dma none r = { ret := 0, st := s, events := [] } := by
  cases hs : s.SenderHUART <;> simp only [VOFA_Transmit_FireWater, hs]

theorem fireWater_empty_format (s : State) (dma : HAL_DMA_StateTypeDef) (f : List Nat)
    (r : RenderResult) (hf : f.headD 0 = 0) :
    VOFA_Transmit_FireWater s dma (some f) r = { ret := 0, st := s, events := [] } := by
  cases hs : s.SenderHUART <;> simp only [VOFA_Transmit_FireWater, hs, if_pos hf]

theorem fireWater_busy (s : State) (dma : HAL_DMA_StateTypeDef) (h : Nat) (f : List Nat)
    (r : RenderResult) (hs : s.SenderHUART = some h) (hf : f.headD 0 ≠ 0)
    (hd : dma ≠ HAL_DMA_StateTypeDef.READY) :
    VOFA_Transmit_FireWater s dma (some f) r =
      { ret := 0, st := s, events := [Event.getState h] } := by
  simp only [VOFA_Transmit_FireWater, hs, if_neg hf, if_pos hd]

theorem fireWater_overflow (s : State) (h : Nat) (f : List Nat) (r : RenderResult)
    (hs : s.SenderHUART = some h) (hf : f.headD 0 ≠ 0)
    (hn : r.ret < 0 ∨ r.ret ≥ (BUFFER_SIZE_FIREWATER : Int)) :
    VOFA_Transmit_FireWater s HAL_DMA_StateTypeDef.READY (some f) r =
      { ret := 0
        st := { s with FireWaterDMATransmitBuffer :=
          (vsnprintf s.FireWaterDMATransmitBuffer BUFFER_SIZE_FIREWATER r).1 }
        events := [Event.getState h] } := by
  have hn2 : (vsnprintf s.FireWaterDMATransmitBuffer BUFFER_SIZE_FIREWATER r).2 < 0 ∨
      (vsnprintf s.FireWaterDMATransmitBuffer BUFFER_SIZE_FIREWATER r).2 ≥
        (BUFFER_SIZE_FIREWATER : Int) := hn
  simp only [VOFA_Transmit_FireWater, hs, if_neg hf, ne_eq, not_true_eq_false, if_false,
    if_pos hn2]

theorem fireWater_accepted (s : State) (h : Nat) (f : List Nat) (r : RenderResult)
    (hs : s.SenderHUART = some h) (hf : f.headD 0 ≠ 0)
    (hn : ¬ (r.ret < 0 ∨ r.ret ≥ (BUFFER_SIZE_FIREWATER : Int))) :
    VOFA_Transmit_FireWater s HAL_DMA_StateTypeDef.READY (some f) r =
      { ret := 1
        st := { s with FireWaterDMATransmitBuffer :=
          (vsnprintf s.FireWaterDMATransmitBuffer BUFFER_SIZE_FIREWATER r).1 }
        events := [Event.getState h,
          Event.transmit (some h)
            ((vsnprintf s.FireWaterDMATransmitBuffer BUFFER_SIZE_FIREWATER r).1.take
              (r.ret.toNat % 65536)) (r.ret.toNat % 65536)] } := by
  have hn2 : ¬ ((vsnprintf s.FireWaterDMATransmitBuffer BUFFER_SIZE_FIREWATER r).2 < 0 ∨
      (vsnprintf s.FireWaterDMATransmitBuffer BUFFER_SIZE_FIREWATER r).2 ≥
        (BUFFER_SIZE_FIREWATER : Int)) := hn
  have e : (vsnprintf s.FireWaterDMATransmitBuffer BUFFER_SIZE_FIREWATER r).2 = r.ret := rfl
  simp only [VOFA_Transmit_FireWater, hs, if_neg hf, ne_eq, not_true_eq_false, if_false,
    if_neg hn2, e, if_neg hn]

/-- C4: `VOFA_Transmit_FireWater` returns 1 exactly when the handle is set, the template is
non-null and its first character is not the terminator (it is not empty), the transport
reports ready and the length `n` returned by the bounded formatter satisfies `0 ≤ n < 72`.  In
every other case, in particular when `n < 0` or `n ≥ 72` (so also at `n = 72`), it returns 0
and makes no transport-send. -/
theorem fireWater_accepts_iff (s : State) (dma : HAL_DMA_StateTypeDef)
    (format : Option (List Nat)) (r : RenderResult) :
    ((VOFA_Transmit_FireWater s dma format r).ret = 1 ↔
      (s.SenderHUART ≠ none ∧ (∃ f, format = some f ∧ f.headD 0 ≠ 0) ∧
        dma = HAL_DMA_StateTypeDef.READY ∧ 0 ≤ r.ret ∧ r.ret < (BUFFER_SIZE_FIREWATER : Int))) ∧
    (¬ (s.SenderHUART ≠ none ∧ (∃ f, format = some f ∧ f.headD 0 ≠ 0) ∧
        dma = HAL_DMA_StateTypeDef.READY ∧ 0 ≤ r.ret ∧ r.ret < (BUFFER_SIZE_FIREWATER : Int)) →
      (VOFA_Transmit_FireWater s dma format r).ret = 0 ∧
      (VOFA_Transmit_FireWater s dma format r).events.filter Event.isTransmit = []) ∧
    ((r.ret < 0 ∨ (BUFFER_SIZE_FIREWATER : Int) ≤ r.ret) →
      (VOFA_Transmit_FireWater s dma format r).ret = 0 ∧
      (VOFA_Transmit_FireWater s dma format r).events.filter Event.isTransmit = []) := by
  have key : ((VOFA_Transmit_FireWater s dma format r).ret = 1 ↔
      (s.SenderHUART ≠ none ∧ (∃ f, format = some f ∧ f.headD 0 ≠ 0) ∧
        dma = HAL_DMA_StateTypeDef.READY ∧ 0 ≤ r.ret ∧ r.ret < (BUFFER_SIZE_FIREWATER : Int))) ∧
      ((VOFA_Transmit_FireWater s dma format r).ret ≠ 1 →
        (VOFA_Transmit_FireWater s dma format r).ret = 0 ∧
        (VOFA_Transmit_FireWater s dma format r).events.filter Event.isTransmit = []) := by
    cases hs : s.SenderHUART with
    | none =>
      rw [fireWater_no_handle s dma format r hs]
      simp
    | some h =>
      cases format with
      | none =>
        rw [fireWater_no_format]
        simp
      | some f =>
        by_cases hf : f.headD 0 = 0
        · rw [fireWater_empty_format s dma f r hf]
          refine ⟨⟨fun h1 => by simp at h1, ?_⟩, fun _ => ⟨rfl, rfl⟩⟩
          rintro ⟨_, ⟨g, hg, hg0⟩, _⟩
          cases hg
          exact absurd hf hg0
        · by_cases hd : dma = HAL_DMA_StateTypeDef.READY
          · subst hd
            by_cases hn : r.ret < 0 ∨ r.ret ≥ (BUFFER_SIZE_FIREWATER : Int)
            · rw [fireWater_overflow s h f r hs hf hn]
              refine ⟨⟨fun h1 => by simp at h1, ?_⟩, fun _ => ⟨rfl, rfl⟩⟩
              rintro ⟨_, _, _, h0, h72⟩
              omega
            · rw [fireWater_accepted s h f r hs hf hn]
              refine ⟨⟨fun _ => ⟨by simp, ⟨f, rfl, hf⟩, rfl, by omega, by omega⟩, fun _ => rfl⟩,
                fun h1 => absurd rfl h1⟩
          · rw [fireWater_busy s dma h f r hs hf hd]
            refine ⟨⟨fun h1 => by simp at h1, ?_⟩, fun _ => ⟨rfl, rfl⟩⟩
            rintro ⟨_, _, hd2, _⟩
            exact absurd hd2 hd
  refine ⟨key.1, fun hnot => key.2 (fun h1 => hnot (key.1.mp h1)), fun hbad => ?_⟩
  apply key.2
  intro h1
  have := key.1.mp h1
  omega

/-- C5: an accepted call of `VOFA_Transmit_FireWater` (handle set, template not empty,
transport ready, rendered length `n` with `0 ≤ n < 72`) makes, after the readiness query,
exactly one transmission request, of length `n`, whose content is the `n` rendered characters:
no terminator, nothing added, nothing dropped. -/
theorem fireWater_sends_rendered_text (s : State) (h : Nat) (f : List Nat) (r : RenderResult)
    (hwf : s.wf) (hinit : s.SenderHUART = some h) (hf : f.headD 0 ≠ 0) (h0 : 0 ≤ r.ret)
    (h72 : r.ret < (BUFFER_SIZE_FIREWATER : Int)) :
    (VOFA_Transmit_FireWater s HAL_DMA_StateTypeDef.READY (some f) r).ret = 1 ∧
    (VOFA_Transmit_FireWater s HAL_DMA_StateTypeDef.READY (some f) r).events =
      [Event.getState h, Event.transmit (some h) r.text r.ret.toNat] ∧
    (r.text.length : Int) = r.ret := by
  rw [fireWater_accepted s h f r hinit hf (by omega)]
  obtain ⟨text, rfl⟩ := (ret_nonneg_iff r).mp h0
  have hlen : text.length < 72 := by
    simp only [RenderResult.ret, buffer_size_firewater] at h72
    omega
  have hmem : 72 ≤ s.FireWaterDMATransmitBuffer.length := hwf.2
  have hsz : BUFFER_SIZE_FIREWATER ≠ 0 := by decide
  have htk : text.take (BUFFER_SIZE_FIREWATER - 1) = text :=
    List.take_of_length_le (by rw [buffer_size_firewater]; omega)
  have hw : (writeAt s.FireWaterDMATransmitBuffer 0 (text ++ [0])).take text.length = text := by
    rw [writeAt_eq _ _ _ (by simp only [List.length_append, List.length_cons, List.length_nil]; omega)]
    simp
  have hmod : text.length % 65536 = text.length := Nat.mod_eq_of_lt (by omega)
  refine ⟨rfl, ?_, rfl⟩
  simp only [vsnprintf, if_neg hsz, htk, RenderResult.text, RenderResult.ret,
    Int.toNat_ofNat, hmod, hw]

/-- C5, instance: the template expansion `a:1` and a newline on handle 7. -/
theorem fireWater_sends_rendered_text_witness :
    (VOFA_Transmit_FireWater (VOFA_Init (initState []) (some 7)) HAL_DMA_StateTypeDef.READY
        (some (ascii "a:%d\n")) (RenderResult.ok (ascii "a:1\n"))).ret = 1 ∧
    (VOFA_Transmit_FireWater (VOFA_Init (initState []) (some 7)) HAL_DMA_StateTypeDef.READY
        (some (ascii "a:%d\n")) (RenderResult.ok (ascii "a:1\n"))).events =
      [Event.getState 7,
        Event.transmit (some 7) (RenderResult.ok (ascii "a:1\n")).text
          (RenderResult.ok (ascii "a:1\n")).ret.toNat] ∧
    ((RenderResult.ok (ascii "a:1\n")).text.length : Int) =
      (RenderResult.ok (ascii "a:1\n")).ret :=
  fireWater_sends_rendered_text (VOFA_Init (initState []) (some 7)) 7 (ascii "a:%d\n")
    (RenderResult.ok (ascii "a:1\n")) (by decide) rfl (by decide) (by decide) (by decide)

/-! ## The transmission gate -/

theorem justFloat_busy (s : State) (dma : HAL_DMA_StateTypeDef) (frame : Option (List Nat))
    (n : Nat) (hd : dma ≠ HAL_DMA_StateTypeDef.READY) :
    (VOFA_Transmit_JustFloat s dma frame n).ret = 0 ∧
    (VOFA_Transmit_JustFloat s dma frame n).st = s ∧
    (VOFA_Transmit_JustFloat s dma frame n).events.filter Event.isTransmit = [] := by
  cases hs : s.SenderHUART with
  | none => simp only [VOFA_Transmit_JustFloat, hs, List.filter_nil, and_self]
  | some h =>
    cases frame with
    | none => simp only [VOFA_Transmit_JustFloat, hs, List.filter_nil, and_self]
    | some fr =>
      by_cases hc : n = 0 ∨ n > MAX_CHANNELS
      · simp only [VOFA_Transmit_JustFloat, hs, if_pos hc, List.filter_nil, and_self]
      · have e : VOFA_Transmit_JustFloat s dma (some fr) n =
            { ret := 0, st := s, events := [Event.getState h] } := by
          simp only [VOFA_Transmit_JustFloat, hs, if_neg hc, if_pos hd]
        rw [e]
        exact ⟨rfl, rfl, rfl⟩

theorem fireWater_busy_drops (s : State) (dma : HAL_DMA_StateTypeDef)
    (format : Option (List Nat)) (r : RenderResult) (hd : dma ≠ HAL_DMA_StateTypeDef.READY) :
    (VOFA_Transmit_FireWater s dma format r).ret = 0 ∧
    (VOFA_Transmit_FireWater s dma format r).st = s ∧
    (VOFA_Transmit_FireWater s dma format r).events.filter Event.isTransmit = [] := by
  cases hs : s.SenderHUART with
  | none =>
    rw [fireWater_no_handle s dma format r hs]
    exact ⟨rfl, rfl, rfl⟩
  | some h =>
    cases format with
    | none =>
      rw [fireWater_no_format]
      exact ⟨rfl, rfl, rfl⟩
    | some f =>
      by_cases hf : f.headD 0 = 0
      · rw [fireWater_empty_format s dma f r hf]
        exact ⟨rfl, rfl, rfl⟩
      · rw [fireWater_busy s dma h f r hs hf hd]
        exact ⟨rfl, rfl, rfl⟩

/-- C6, at the failing input: handle 1 is set and the DMA channel is busy.  The two gated
encoders drop the frame and leave the state alone, while the structured encoder, called with
prefix `ch:` and the value `1.0`, returns 1, rewrites the text buffer and invokes
transport-send with the 12 bytes `ch:1.000000` and newline. -/
theorem descriptor_ignores_busy :
    (VOFA_Transmit_JustFloat (VOFA_Init (initState []) (some 1)) HAL_DMA_StateTypeDef.BUSY
      (some [0x3F800000]) 1) =
      { ret := 0, st := VOFA_Init (initState []) (some 1), events := [Event.getState 1] } ∧
    (VOFA_Transmit_FireWater (VOFA_Init (initState []) (some 1)) HAL_DMA_StateTypeDef.BUSY
      (some (ascii "ch:%f\n")) (RenderResult.ok (ascii "ch:1.000000\n"))) =
      { ret := 0, st := VOFA_Init (initState []) (some 1), events := [Event.getState 1] } ∧
    (VOFA_Transmit_FireWater_Descriptor fmtF (VOFA_Init (initState []) (some 1))
      (some (ascii "ch:")) (some [0x3F800000]) 1).ret = 1 ∧
    (VOFA_Transmit_FireWater_Descriptor fmtF (VOFA_Init (initState []) (some 1))
      (some (ascii "ch:")) (some [0x3F800000]) 1).events =
      [Event.transmit (some 1) (ascii "ch:1.000000\n") 12] ∧
    (VOFA_Transmit_FireWater_Descriptor fmtF (VOFA_Init (initState []) (some 1))
      (some (ascii "ch:")) (some [0x3F800000]) 1).st.textBuffer ≠
      (VOFA_Init (initState []) (some 1)).textBuffer := by
  decide

/-- C7, at the failing input: before any `VOFA_Init` the handle is `NULL`.  The two validated
encoders return 0 without any HAL call, while the structured encoder, called with no prefix
and the value `1.0`, returns 1 and invokes transport-send with the `NULL` handle. -/
theorem descriptor_uses_null_handle :
    (initState []).SenderHUART = none ∧
    (VOFA_Transmit_JustFloat (initState []) HAL_DMA_StateTypeDef.READY
      (some [0x3F800000]) 1) = { ret := 0, st := initState [], events := [] } ∧
    (VOFA_Transmit_FireWater (initState []) HAL_DMA_StateTypeDef.READY
      (some (ascii "%f\n")) (RenderResult.ok (ascii "1.000000\n"))) =
      { ret := 0, st := initState [], events := [] } ∧
    (VOFA_Transmit_FireWater_Descriptor fmtF (initState []) none (some [0x3F800000]) 1).ret
      = 1 ∧
    (VOFA_Transmit_FireWater_Descriptor fmtF (initState []) none (some [0x3F800000]) 1).events
      = [Event.transmit none (ascii "1.000000\n") 9] := by
  decide

set_option maxRecDepth 4096 in
/-- C8, at the failing input: a prefix of 73 letters `a` and the single value `0.0`, the
memory after the 72-byte array holding sixteen bytes `0xFF`.  The prefix stage leaves the
cursor at offset 73 with 255 bytes said to remain, so the render call of the value gets the
region `(73, 255)` outside the array and stores `0.000000`, newline and a zero after its end;
offset plus remaining is 328 after the prefix stage. -/
theorem descriptor_overruns_text_buffer :
    (renderPrefix (initCursor (initState (List.replicate 16 255)).FireWaterDMATransmitBuffer)
      (some (List.replicate 73 97))).pBuffer = 73 ∧
    (renderPrefix (initCursor (initState (List.replicate 16 255)).FireWaterDMATransmitBuffer)
      (some (List.replicate 73 97))).RemainingSize = 255 ∧
    (buildLine fmtF (initState (List.replicate 16 255)).FireWaterDMATransmitBuffer
      (some (List.replicate 73 97)) (some [0]) 1).renders = [(0, 72), (73, 255)] ∧
    (initState (List.replicate 16 255)).FireWaterDMATransmitBuffer.drop BUFFER_SIZE_FIREWATER =
      List.replicate 16 255 ∧
    (VOFA_Transmit_FireWater_Descriptor fmtF (initState (List.replicate 16 255))
      (some (List.replicate 73 97)) (some [0]) 1).st.FireWaterDMATransmitBuffer.drop
        BUFFER_SIZE_FIREWATER =
      [255] ++ ascii "0.000000\n" ++ [0] ++ List.replicate 5 255 := by
  refine ⟨?_, ?_, ?_, ?_, ?_⟩ <;> decide

/-! ## The text array always holds a terminator -/

theorem strlen_lt_of_zero_mem_take (mem : List Nat) (k : Nat) (h : 0 ∈ mem.take k) :
    strlen mem < k := by
  unfold strlen
  induction mem generalizing k with
  | nil => simp at h
  | cons a t ih =>
    cases k with
    | zero => simp at h
    | succ m =>
      by_cases ha : a = 0
      · simp [List.takeWhile_cons, ha]
      · have ht : 0 ∈ t.take m := by
          rw [List.take_succ_cons, List.mem_cons] at h
          rcases h with h | h
          · exact absurd h.symm ha
          · exact h
        have := ih m ht
        simp only [List.takeWhile_cons, bne_iff_ne, ne_eq, ha, not_false_eq_true, decide_True,
          if_true, List.length_cons]
        omega

theorem mem_take_of_le (mem : List Nat) (a b : Nat) (x : Nat) (hab : a ≤ b)
    (h : x ∈ mem.take a) : x ∈ mem.take b := by
  have e : mem.take a = (mem.take b).take a := by
    rw [List.take_take, Nat.min_eq_left hab]
  rw [e] at h
  exact List.mem_of_mem_take h

/-- A bounded render into a region that lies inside the array, or that starts at or after its
end, keeps a zero byte inside the array. -/
theorem snprintf_textOk (mem : List Nat) (off size : Nat) (text : List Nat) (hok : textOk mem)
    (hreg : off + size ≤ BUFFER_SIZE_FIREWATER ∨ BUFFER_SIZE_FIREWATER ≤ off) :
    textOk (snprintf mem off size text).1 := by
  unfold snprintf
  by_cases h0 : size = 0
  · simp only [if_pos h0]
    exact hok
  · simp only [if_neg h0]
    refine ⟨by rw [length_writeAt]; exact hok.1, ?_⟩
    rcases hreg with hA | hB
    · have hb : (text.take (size - 1) ++ [0]).length ≤ size := by
        simp only [List.length_append, List.length_take, List.length_cons, List.length_nil]
        omega
      have ht := take_writeAt mem off (text.take (size - 1) ++ [0]) (by have := hok.1; omega)
      have hz : 0 ∈ (writeAt mem off (text.take (size - 1) ++ [0])).take
          (off + (text.take (size - 1) ++ [0]).length) := by
        rw [ht]
        simp
      exact mem_take_of_le _ _ _ _ (by omega) hz
    · rw [take_writeAt_of_le mem off _ _ hB]
      exact hok.2

theorem render_ok (c : Cursor) (text : List Nat) (hc : c.ok) : (render c text).ok := by
  obtain ⟨hm, hreg⟩ := hc
  refine ⟨?_, ?_⟩
  · exact snprintf_textOk c.mem c.pBuffer c.RemainingSize text hm
      (hreg.imp (fun h => Nat.le_of_eq h) (fun h => Nat.le_of_lt h))
  · simp only [render, snprintf]
    rw [buffer_size_firewater] at hreg ⊢
    have hw : text.length % 256 < 256 := Nat.mod_lt _ (by decide)
    omega

theorem channelLoop_ok (fmt : Nat → List Nat) (frame : Option (List Nat)) (count : Nat) :
    ∀ (n i : Nat) (c : Cursor), c.ok → (channelLoop fmt frame count n i c).ok := by
  intro n
  induction n with
  | zero => intro i c hc; exact hc
  | succ n ih =>
    intro i c hc
    unfold channelLoop
    split
    · exact hc
    · exact ih (i + 1) _ (render_ok c _ hc)

theorem renderPrefix_ok (c : Cursor) (pfx : Option (List Nat)) (hc : c.ok) :
    (renderPrefix c pfx).ok := by
  unfold renderPrefix
  cases pfx with
  | none => exact hc
  | some p =>
    simp only
    split
    · exact render_ok c p hc
    · exact hc

theorem buildLine_ok (fmt : Nat → List Nat) (mem : List Nat) (pfx : Option (List Nat))
    (frame : Option (List Nat)) (n : Nat) (hm : textOk mem) :
    textOk (buildLine fmt mem pfx frame n).mem :=
  (channelLoop_ok fmt frame n n 0 _ (renderPrefix_ok (initCursor mem) pfx ⟨hm, Or.inl rfl⟩)).1

theorem justFloat_text_unchanged (s : State) (dma : HAL_DMA_StateTypeDef)
    (frame : Option (List Nat)) (n : Nat) :
    (VOFA_Transmit_JustFloat s dma frame n).st.FireWaterDMATransmitBuffer =
      s.FireWaterDMATransmitBuffer := by
  unfold VOFA_Transmit_JustFloat
  split
  · split
    · rfl
    · split <;> rfl
  · rfl

theorem fireWater_textOk (s : State) (dma : HAL_DMA_StateTypeDef) (format : Option (List Nat))
    (r : RenderResult) (hm : textOk s.FireWaterDMATransmitBuffer) :
    textOk (VOFA_Transmit_FireWater s dma format r).st.FireWaterDMATransmitBuffer := by
  have hv : textOk (vsnprintf s.FireWaterDMATransmitBuffer BUFFER_SIZE_FIREWATER r).1 :=
    snprintf_textOk s.FireWaterDMATransmitBuffer 0 BUFFER_SIZE_FIREWATER r.text hm
      (Or.inl (by omega))
  cases hs : s.SenderHUART with
  | none =>
    rw [fireWater_no_handle s dma format r hs]
    exact hm
  | some h =>
    cases format with
    | none =>
      rw [fireWater_no_format]
      exact hm
    | some f =>
      by_cases hf : f.headD 0 = 0
      · rw [fireWater_empty_format s dma f r hf]
        exact hm
      · by_cases hd : dma = HAL_DMA_StateTypeDef.READY
        · subst hd
          by_cases hn : r.ret < 0 ∨ r.ret ≥ (BUFFER_SIZE_FIREWATER : Int)
          · rw [fireWater_overflow s h f r hs hf hn]
            exact hv
          · rw [fireWater_accepted s h f r hs hf hn]
            exact hv
        · rw [fireWater_busy s dma h f r hs hf hd]
          exact hm

/-- In every reachable state the text array holds a zero byte. -/
theorem reachable_textOk (fmt : Nat → List Nat) (s : State) (h : Reachable fmt s) :
    textOk s.FireWaterDMATransmitBuffer := by
  induction h with
  | start tail =>
    refine ⟨?_, ?_⟩
    · simp only [initState, List.length_append, List.length_replicate]
      omega
    · simp only [initState]
      rw [List.take_left' (List.length_replicate _ _)]
      decide
  | init s huart _ ih => exact ih
  | justFloat s dma frame n _ ih =>
    rw [justFloat_text_unchanged]
    exact ih
  | fireWater s dma format r _ ih => exact fireWater_textOk s dma format r ih
  | descriptor s pfx frame n _ ih => exact buildLine_ok fmt _ pfx frame n ih

/-- The transmit length of the structured encoder from a text memory whose array holds a zero
byte: the one event is a transmit whose size is below the capacity and is the length of its
data. -/
theorem descriptor_size_lt (fmt : Nat → List Nat) (s : State) (pfx : Option (List Nat))
    (frame : Option (List Nat)) (n : Nat) (hm : textOk s.FireWaterDMATransmitBuffer) :
    ∃ data size, (VOFA_Transmit_FireWater_Descriptor fmt s pfx frame n).events =
        [Event.transmit s.SenderHUART data size] ∧
      size < BUFFER_SIZE_FIREWATER ∧ data.length = size := by
  have hb := buildLine_ok fmt s.FireWaterDMATransmitBuffer pfx frame n hm
  have hlt := strlen_lt_of_zero_mem_take _ _ hb.2
  have hmod : strlen (buildLine fmt s.FireWaterDMATransmitBuffer pfx frame n).mem % 65536 =
      strlen (buildLine fmt s.FireWaterDMATransmitBuffer pfx frame n).mem :=
    Nat.mod_eq_of_lt (by rw [buffer_size_firewater] at hlt; omega)
  refine ⟨_, _, rfl, ?_, ?_⟩
  · rw [hmod]
    exact hlt
  · rw [hmod, List.length_take]
    have := hb.1
    omega

/-- C9: from every state reachable through the operations of the module, for every prefix,
channel array and count, `VOFA_Transmit_FireWater_Descriptor` makes one transport-send whose
length does not exceed the text buffer capacity 72 (and whose data has that length). -/
theorem descriptor_length_within_capacity (fmt : Nat → List Nat) (s : State)
    (hr : Reachable fmt s) (pfx : Option (List Nat)) (frame : Option (List Nat)) (n : Nat) :
    ∃ data size, (VOFA_Transmit_FireWater_Descriptor fmt s pfx frame n).events =
        [Event.transmit s.SenderHUART data size] ∧
      size ≤ BUFFER_SIZE_FIREWATER ∧ BUFFER_SIZE_FIREWATER = 72 ∧ data.length = size := by
  obtain ⟨data, size, he, hs, hl⟩ :=
    descriptor_size_lt fmt s pfx frame n (reachable_textOk fmt s hr)
  exact ⟨data, size, he, Nat.le_of_lt hs, rfl, hl⟩

/-- C9, instance: the state left by a structured send with a 100-character prefix, then a
second send of three values. -/
theorem descriptor_length_within_capacity_witness :
    ∃ data size,
      (VOFA_Transmit_FireWater_Descriptor fmtF
        (VOFA_Transmit_FireWater_Descriptor fmtF (initState []) (some (List.replicate 100 97))
          (some [0x3F800000]) 1).st
        (some (ascii "ch:")) (some [0x3F800000, 0x40200000, 0xC0500000]) 3).events =
        [Event.transmit
          (VOFA_Transmit_FireWater_Descriptor fmtF (initState []) (some (List.replicate 100 97))
            (some [0x3F800000]) 1).st.SenderHUART data size] ∧
      size ≤ BUFFER_SIZE_FIREWATER ∧ BUFFER_SIZE_FIREWATER = 72 ∧ data.length = size :=
  descriptor_length_within_capacity fmtF _
    (Reachable.descriptor (initState []) (some (List.replicate 100 97)) (some [0x3F800000]) 1
      (Reachable.start [])) (some (ascii "ch:")) (some [0x3F800000, 0x40200000, 0xC0500000]) 3

/-! ## Capacity of the text buffer against ten channels -/

theorem nine_le_lineText (fmt : Nat → List Nat) (h8 : ∀ v, 8 ≤ (fmt v).length)
    (frame : List Nat) : 9 * frame.length ≤ (lineText fmt frame).length := by
  rw [length_lineText]
  induction frame with
  | nil => simp
  | cons v vs ih =>
    have := h8 v
    simp only [List.length_cons, List.map_cons, List.sum_cons]
    omega

/-- With renderings of at least 8 characters, no call with ten channels can transmit the
complete line, whatever the prefix: the line has at least 90 characters and the transmit length
stays below 72. -/
theorem descriptor_cannot_send_ten_channels (fmt : Nat → List Nat) (s : State)
    (hr : Reachable fmt s) (h8 : ∀ v, 8 ≤ (fmt v).length) (pfx : Option (List Nat))
    (frame : List Nat) (h10 : frame.length = MAX_CHANNELS) (h : Option Nat) (data : List Nat)
    (size : Nat)
    (he : (VOFA_Transmit_FireWater_Descriptor fmt s pfx (some frame) frame.length).events =
      [Event.transmit h data size]) :
    data ≠ pfxText pfx ++ lineText fmt frame := by
  obtain ⟨d, n, hev, hn, hl⟩ :=
    descriptor_size_lt fmt s pfx (some frame) frame.length (reachable_textOk fmt s hr)
  rw [hev] at he
  have hd : d = data := by
    injection he with h1 _
    injection h1 with _ h2 _
  have h9 := nine_le_lineText fmt h8 frame
  intro e
  rw [hd, e, List.length_append] at hl
  rw [buffer_size_firewater] at hn
  rw [h10] at h9
  unfold MAX_CHANNELS at h9
  omega

/-- C10, at the failing input: no prefix and `MAX_CHANNELS = 10` values `0.0`.  The complete
line has 90 characters; the call transmits its first 71 only: seven values with their commas
and the eighth value without its comma. -/
theorem descriptor_truncates_ten_channels :
    (pfxText none ++ lineText fmtF (List.replicate MAX_CHANNELS 0)).length = 90 ∧
    BUFFER_SIZE_FIREWATER = 72 ∧
    (VOFA_Transmit_FireWater_Descriptor fmtF (initState []) none
      (some (List.replicate MAX_CHANNELS 0)) MAX_CHANNELS).events =
      [Event.transmit none
        (ascii "0.000000,0.000000,0.000000,0.000000,0.000000,0.000000,0.000000,0.000000") 71] ∧
    (ascii "0.000000,0.000000,0.000000,0.000000,0.000000,0.000000,0.000000,0.000000") =
      (pfxText none ++ lineText fmtF (List.replicate MAX_CHANNELS 0)).take 71 := by
  refine ⟨?_, ?_, ?_, ?_⟩ <;> decide

/-! ## The structured encoder never refuses -/

/-- C13: `VOFA_Transmit_FireWater_Descriptor` makes no readiness query and cannot fail: for
every `%f` conversion, every module state (handle set or `NULL`), prefix, channel array and
count it returns 1 and its HAL calls are exactly one transport-send, on the stored handle. -/
theorem descriptor_always_sends (fmt : Nat → List Nat) (s : State) (pfx : Option (List Nat))
    (frame : Option (List Nat)) (n : Nat) :
    (VOFA_Transmit_FireWater_Descriptor fmt s pfx frame n).ret = 1 ∧
    (VOFA_Transmit_FireWater_Descriptor fmt s pfx frame n).events.filter Event.isQuery = [] ∧
    ((VOFA_Transmit_FireWater_Descriptor fmt s pfx frame n).events.filter
      Event.isTransmit).length = 1 ∧
    ∃ data size, (VOFA_Transmit_FireWater_Descriptor fmt s pfx frame n).events =
      [Event.transmit s.SenderHUART data size] :=
  ⟨rfl, rfl, rfl, _, _, rfl⟩

/-! ## Prefix only -/

/-- C15: with count 0 and a non-empty prefix of at most 71 characters,
`VOFA_Transmit_FireWater_Descriptor` runs no loop iteration (the cursor after the call is the
one the prefix stage left, and the only render is the prefix at the start of the array),
returns 1 and transmits exactly the prefix, with its length, whatever the text memory held. -/
theorem descriptor_prefix_only (fmt : Nat → List Nat) (s : State) (p : List Nat)
    (frame : Option (List Nat)) (hwf : s.wf) (hne : p ≠ []) (hz : 0 ∉ p)
    (hlen : p.length ≤ 71) :
    buildLine fmt s.FireWaterDMATransmitBuffer (some p) frame 0 =
      renderPrefix (initCursor s.FireWaterDMATransmitBuffer) (some p) ∧
    (buildLine fmt s.FireWaterDMATransmitBuffer (some p) frame 0).renders =
      [(0, BUFFER_SIZE_FIREWATER)] ∧
    (VOFA_Transmit_FireWater_Descriptor fmt s (some p) frame 0).ret = 1 ∧
    (VOFA_Transmit_FireWater_Descriptor fmt s (some p) frame 0).events =
      [Event.transmit s.SenderHUART p p.length] := by
  have hmem : 72 ≤ s.FireWaterDMATransmitBuffer.length := hwf.2
  have hb : buildLine fmt s.FireWaterDMATransmitBuffer (some p) frame 0 =
      renderPrefix (initCursor s.FireWaterDMATransmitBuffer) (some p) := rfl
  obtain ⟨_, _, _, _, hrest⟩ := renderPrefix_fits s.FireWaterDMATransmitBuffer (some p) hmem hz
    (by simp only [pfxText]; omega)
  obtain ⟨rest, hrest⟩ := hrest hne
  simp only [pfxText] at hrest
  have hhead : p.headD 0 ≠ 0 := by
    cases p with
    | nil => exact absurd rfl hne
    | cons a t =>
      intro e
      exact hz (by simp only [List.headD_cons] at e; rw [e]; exact List.mem_cons_self 0 t)
  have hmod : p.length % 65536 = p.length := Nat.mod_eq_of_lt (by omega)
  refine ⟨hb, ?_, rfl, ?_⟩
  · rw [hb]
    simp only [renderPrefix, if_pos hhead, render, initCursor, List.nil_append]
    rfl
  · simp only [VOFA_Transmit_FireWater_Descriptor, hb, hrest, strlen_append_zero p rest hz, hmod]
    rw [List.take_left' rfl]

/-- C15, instance: prefix `ch:` and count 0 from the start state. -/
theorem descriptor_prefix_only_witness :
    buildLine fmtF (initState []).FireWaterDMATransmitBuffer (some (ascii "ch:")) none 0 =
      renderPrefix (initCursor (initState []).FireWaterDMATransmitBuffer) (some (ascii "ch:")) ∧
    (buildLine fmtF (initState []).FireWaterDMATransmitBuffer (some (ascii "ch:")) none
      0).renders = [(0, BUFFER_SIZE_FIREWATER)] ∧
    (VOFA_Transmit_FireWater_Descriptor fmtF (initState []) (some (ascii "ch:")) none 0).ret
      = 1 ∧
    (VOFA_Transmit_FireWater_Descriptor fmtF (initState []) (some (ascii "ch:")) none 0).events
      = [Event.transmit (initState []).SenderHUART (ascii "ch:") (ascii "ch:").length] :=
  descriptor_prefix_only fmtF (initState []) (ascii "ch:") none (by decide) (by decide)
    (by decide) (by decide)

/-! ## The binary frame: sizes and the sentinel -/

/-- An accepted binary send, as an equation on the outcome. -/
theorem justFloat_accepted (s : State) (h : Nat) (fr : List Nat) (n : Nat)
    (hbuf : s.JustFloatDMATransmitBuffer.length = 44) (hinit : s.SenderHUART = some h)
    (h1 : 1 ≤ n) (h10 : n ≤ 10) (hfr : n ≤ fr.length) :
    (VOFA_Transmit_JustFloat s HAL_DMA_StateTypeDef.READY (some fr) n).ret = 1 ∧
    (VOFA_Transmit_JustFloat s HAL_DMA_StateTypeDef.READY (some fr) n).events =
      [Event.getState h,
        Event.transmit (some h) (frameBytes (fr.take n) ++ FRAM_TAIL) (4 * n + 4)] ∧
    (VOFA_Transmit_JustFloat s HAL_DMA_StateTypeDef.READY (some fr) n).st.SenderHUART =
      s.SenderHUART ∧
    (VOFA_Transmit_JustFloat s HAL_DMA_StateTypeDef.READY (some fr)
      n).st.JustFloatDMATransmitBuffer.length = 44 ∧
    (VOFA_Transmit_JustFloat s HAL_DMA_StateTypeDef.READY (some fr)
      n).st.FireWaterDMATransmitBuffer = s.FireWaterDMATransmitBuffer := by
  have hc : ¬ (n = 0 ∨ n > MAX_CHANNELS) := by
    unfold MAX_CHANNELS
    omega
  have hb := justFloat_buffer s.JustFloatDMATransmitBuffer fr n hbuf h10 hfr
  refine ⟨?_, ?_, ?_, ?_, ?_⟩
  · simp only [VOFA_Transmit_JustFloat, hinit, if_neg hc, ne_eq, not_true_eq_false, if_false]
  · simp only [VOFA_Transmit_JustFloat, hinit, if_neg hc, ne_eq, not_true_eq_false, if_false,
      Datasize_eq n h10, TotalSize_eq n h10, hb]
  · simp only [VOFA_Transmit_JustFloat, hinit, if_neg hc, ne_eq, not_true_eq_false, if_false]
  · simp only [VOFA_Transmit_JustFloat, hinit, if_neg hc, ne_eq, not_true_eq_false, if_false,
      memcpy, length_writeAt, hbuf]
  · exact justFloat_text_unchanged s _ _ n

/-- C18: for every count that passes validation (`1 ≤ count ≤ MAX_CHANNELS`) the products and
sums behind `Datasize` and `TotalSize` stay below `2^16`, so `Datasize = 4*count` and
`TotalSize = 4*count+4`; both `memcpy` regions end inside the binary buffer; and
`TotalSize ≤ 44 = BUFFER_SIZE_JUSTFLOAT`, with equality exactly at `count = 10`. -/
theorem justFloat_sizes_in_bounds (n : Nat) (h1 : 1 ≤ n) (h10 : n ≤ MAX_CHANNELS) :
    n * sizeofFloat < 65536 ∧ Datasize n = 4 * n ∧
    Datasize n + FRAM_TAIL_SIZE < 65536 ∧ TotalSize n = 4 * n + 4 ∧
    (∀ r ∈ copyRegions n, r.1 + r.2 ≤ BUFFER_SIZE_JUSTFLOAT) ∧
    TotalSize n ≤ BUFFER_SIZE_JUSTFLOAT ∧ BUFFER_SIZE_JUSTFLOAT = 44 ∧
    (TotalSize n = BUFFER_SIZE_JUSTFLOAT ↔ n = 10) := by
  have hm : MAX_CHANNELS = 10 := rfl
  have hs : sizeofFloat = 4 := rfl
  have ht : FRAM_TAIL_SIZE = 4 := rfl
  have hb : BUFFER_SIZE_JUSTFLOAT = 44 := rfl
  rw [hm] at h10
  have hd := Datasize_eq n h10
  have hT := TotalSize_eq n h10
  refine ⟨by rw [hs]; omega, hd, by omega, hT, ?_, by omega, hb, by omega⟩
  intro r hr
  simp only [copyRegions, List.mem_cons, List.mem_singleton, List.mem_nil_iff, or_false] at hr
  rcases hr with hr | hr <;> subst hr <;> simp only [hd, ht, hb] <;> omega

/-- C18, instance: the largest accepted count. -/
theorem justFloat_sizes_in_bounds_witness :
    10 * sizeofFloat < 65536 ∧ Datasize 10 = 4 * 10 ∧
    Datasize 10 + FRAM_TAIL_SIZE < 65536 ∧ TotalSize 10 = 4 * 10 + 4 ∧
    (∀ r ∈ copyRegions 10, r.1 + r.2 ≤ BUFFER_SIZE_JUSTFLOAT) ∧
    TotalSize 10 ≤ BUFFER_SIZE_JUSTFLOAT ∧ BUFFER_SIZE_JUSTFLOAT = 44 ∧
    (TotalSize 10 = BUFFER_SIZE_JUSTFLOAT ↔ 10 = 10) :=
  justFloat_sizes_in_bounds 10 (by decide) (by decide)

theorem floatBytes_ne_tail (w : Nat) (hfin : exponentField w ≠ 255) :
    floatBytes w ≠ FRAM_TAIL := by
  intro e
  simp only [floatBytes, FRAM_TAIL, List.cons.injEq, and_true] at e
  unfold exponentField at hfin
  omega

theorem group4_frameBytes (l rest : List Nat) (i : Nat) (hi : i < l.length) :
    group4 (frameBytes l ++ rest) i = floatBytes (l.getD i 0) := by
  induction l generalizing i with
  | nil => simp at hi
  | cons w ws ih =>
    cases i with
    | zero => simp [group4, frameBytes, floatBytes]
    | succ j =>
      have hj : j < ws.length := by
        simp only [List.length_cons] at hi
        omega
      have h4 : 4 * (j + 1) = 4 * j + 4 := by ring
      have := ih j hj
      simp only [group4, frameBytes] at this
      simp only [group4, frameBytes, List.flatMap_cons, h4, List.getD_cons_succ]
      rw [← this]
      simp [floatBytes]

/-- C16: a finite single-precision value (exponent field not all ones) never has the sentinel
as its byte representation; hence in the frame `VOFA_Transmit_JustFloat` transmits for `n`
finite values, no 4-byte group before group `n` equals the sentinel and group `n`, at offset
`4*n`, is the sentinel. -/
theorem sentinel_differs_from_finite_values (s : State) (h : Nat) (fr : List Nat) (n : Nat)
    (hwf : s.wf) (hinit : s.SenderHUART = some h) (h1 : 1 ≤ n) (h10 : n ≤ 10)
    (hfr : n ≤ fr.length) (hfin : ∀ w ∈ fr, exponentField w ≠ 255) :
    (∀ w, exponentField w ≠ 255 → floatBytes w ≠ [0x00, 0x00, 0x80, 0x7F]) ∧
    ∃ data, (VOFA_Transmit_JustFloat s HAL_DMA_StateTypeDef.READY (some fr) n).events =
        [Event.getState h, Event.transmit (some h) data (4 * n + 4)] ∧
      (∀ i, i < n → group4 data i ≠ [0x00, 0x00, 0x80, 0x7F]) ∧
      group4 data n = [0x00, 0x00, 0x80, 0x7F] := by
  refine ⟨fun w hw => floatBytes_ne_tail w hw, ?_⟩
  obtain ⟨_, hev, _⟩ := justFloat_accepted s h fr n hwf.1 hinit h1 h10 hfr
  have hl : (fr.take n).length = n := by
    rw [List.length_take, Nat.min_eq_left hfr]
  refine ⟨frameBytes (fr.take n) ++ FRAM_TAIL, hev, ?_, ?_⟩
  · intro i hi
    rw [group4_frameBytes (fr.take n) FRAM_TAIL i (by omega)]
    apply floatBytes_ne_tail
    have hi2 : i < (fr.take n).length := by omega
    have hmem : (fr.take n).getD i 0 ∈ fr.take n := by
      rw [List.getD_eq_getElem _ _ hi2]
      exact List.getElem_mem hi2
    exact hfin _ (List.mem_of_mem_take hmem)
  · have hlen : (frameBytes (fr.take n)).length = 4 * n := by
      rw [length_frameBytes, hl]
    unfold group4
    rw [List.drop_left' hlen]
    rfl

/-- C16, instance: the three finite values `1.0, 2.5, -3.25`. -/
theorem sentinel_differs_from_finite_values_witness :
    (∀ w, exponentField w ≠ 255 → floatBytes w ≠ [0x00, 0x00, 0x80, 0x7F]) ∧
    ∃ data, (VOFA_Transmit_JustFloat (VOFA_Init (initState []) (some 1))
        HAL_DMA_StateTypeDef.READY (some [0x3F800000, 0x40200000, 0xC0500000]) 3).events =
        [Event.getState 1, Event.transmit (some 1) data (4 * 3 + 4)] ∧
      (∀ i, i < 3 → group4 data i ≠ [0x00, 0x00, 0x80, 0x7F]) ∧
      group4 data 3 = [0x00, 0x00, 0x80, 0x7F] :=
  sentinel_differs_from_finite_values (VOFA_Init (initState []) (some 1)) 1
    [0x3F800000, 0x40200000, 0xC0500000] 3 (by decide) rfl (by decide) (by decide) (by decide)
    (by decide)

/-- C17, as stated, fails: the word of the sentinel has exponent field all ones but its
mantissa field is zero, so it is not a NaN pattern. -/
theorem sentinel_is_not_nan :
    ¬ (exponentField (wordOfBytes FRAM_TAIL) = 255 ∧ mantissaField (wordOfBytes FRAM_TAIL) ≠ 0) := by
  decide

/-- C17, amended: the sentinel bytes `00 00 80 7F`, read as a little-endian 32-bit word, are
`0x7F800000`, the single-precision pattern of positive infinity: sign bit zero, exponent field
all ones, mantissa field zero (the `%f` conversion prints it as `inf`). -/
theorem sentinel_is_infinity :
    FRAM_TAIL = [0x00, 0x00, 0x80, 0x7F] ∧ wordOfBytes FRAM_TAIL = 0x7F800000 ∧
    signField (wordOfBytes FRAM_TAIL) = 0 ∧ exponentField (wordOfBytes FRAM_TAIL) = 255 ∧
    mantissaField (wordOfBytes FRAM_TAIL) = 0 ∧ fmtF (wordOfBytes FRAM_TAIL) = ascii "inf" := by
  refine ⟨?_, ?_, ?_, ?_, ?_, ?_⟩ <;> decide

/-! ## What the structured encoder transmits does not depend on the earlier text -/

theorem strlen_take (m : List Nat) (k : Nat) (h : 0 ∈ m.take k) :
    strlen (m.take k) = strlen m := by
  unfold strlen
  induction m generalizing k with
  | nil => simp at h
  | cons a t ih =>
    cases k with
    | zero => simp at h
    | succ j =>
      by_cases ha : a = 0
      · simp [List.take_succ_cons, List.takeWhile_cons, ha]
      · have ht : 0 ∈ t.take j := by
          rw [List.take_succ_cons, List.mem_cons] at h
          rcases h with h | h
          · exact absurd h.symm ha
          · exact h
        have := ih j ht
        simp only [List.take_succ_cons, List.takeWhile_cons, bne_iff_ne, ne_eq, ha,
          not_false_eq_true, decide_True, if_true, List.length_cons]
        omega

/-- Memories holding the same text give the same transmit length and the same bytes. -/
theorem sameText_strlen (m1 m2 : List Nat) (h : sameText m1 m2) :
    strlen m1 = strlen m2 ∧ m1.take (strlen m1) = m2.take (strlen m2) ∧
      strlen m1 < BUFFER_SIZE_FIREWATER := by
  obtain ⟨k, hk, he, hz⟩ := h
  have hz2 : 0 ∈ m2.take k := he ▸ hz
  have e1 := strlen_take m1 k hz
  have e2 := strlen_take m2 k hz2
  have hlt := strlen_lt_of_zero_mem_take m1 k hz
  have hs : strlen m1 = strlen m2 := by rw [← e1, ← e2, he]
  have ht : ∀ m : List Nat, m.take (strlen m1) = (m.take k).take (strlen m1) := by
    intro m
    rw [List.take_take, Nat.min_eq_left (Nat.le_of_lt hlt)]
  refine ⟨hs, ?_, by omega⟩
  rw [← hs, ht m1, ht m2, he]

/-- The same bounded render on two memories, into a region inside the array or past its end:
the results hold the same text, provided the memories did or the region starts the array. -/
theorem snprintf_sameText (m1 m2 : List Nat) (off size : Nat) (t : List Nat)
    (h1 : BUFFER_SIZE_FIREWATER ≤ m1.length) (h2 : BUFFER_SIZE_FIREWATER ≤ m2.length)
    (hreg : off + size ≤ BUFFER_SIZE_FIREWATER ∨ BUFFER_SIZE_FIREWATER ≤ off)
    (hs : (off = 0 ∧ size ≠ 0) ∨ sameText m1 m2) :
    sameText (snprintf m1 off size t).1 (snprintf m2 off size t).1 := by
  unfold snprintf
  by_cases h0 : size = 0
  · simp only [if_pos h0]
    rcases hs with ⟨_, hne⟩ | hs
    · exact absurd h0 hne
    · exact hs
  · simp only [if_neg h0]
    have hb : (t.take (size - 1) ++ [0]).length ≤ size := by
      simp only [List.length_append, List.length_take, List.length_cons, List.length_nil]
      omega
    rcases hreg with hA | hB
    · have e1 := take_writeAt m1 off (t.take (size - 1) ++ [0]) (by omega)
      have e2 := take_writeAt m2 off (t.take (size - 1) ++ [0]) (by omega)
      have key : m1.take off = m2.take off →
          sameText (writeAt m1 off (t.take (size - 1) ++ [0]))
            (writeAt m2 off (t.take (size - 1) ++ [0])) := by
        intro e
        refine ⟨off + (t.take (size - 1) ++ [0]).length, by omega, by rw [e1, e2, e], ?_⟩
        rw [e1]
        simp
      rcases hs with ⟨hoff, _⟩ | ⟨k, hk, hek, hz⟩
      · apply key
        rw [hoff]
        rfl
      · by_cases hko : off ≤ k
        · apply key
          have ht : ∀ m : List Nat, m.take off = (m.take k).take off := by
            intro m
            rw [List.take_take, Nat.min_eq_left hko]
          rw [ht m1, ht m2, hek]
        · refine ⟨k, hk, ?_, ?_⟩
          · rw [take_writeAt_of_le _ _ _ _ (by omega), take_writeAt_of_le _ _ _ _ (by omega)]
            exact hek
          · rw [take_writeAt_of_le _ _ _ _ (by omega)]
            exact hz
    · rcases hs with ⟨hoff, _⟩ | ⟨k, hk, hek, hz⟩
      · rw [buffer_size_firewater] at hB
        omega
      · refine ⟨k, hk, ?_, ?_⟩
        · rw [take_writeAt_of_le _ _ _ _ (by omega), take_writeAt_of_le _ _ _ _ (by omega)]
          exact hek
        · rw [take_writeAt_of_le _ _ _ _ (by omega)]
          exact hz

theorem render_paired (c1 c2 : Cursor) (t : List Nat) (hp : c1.paired c2)
    (hs : (c1.pBuffer = 0 ∧ c1.RemainingSize ≠ 0) ∨ sameText c1.mem c2.mem) :
    (render c1 t).paired (render c2 t) ∧ sameText (render c1 t).mem (render c2 t).mem := by
  obtain ⟨hpb, hrs, h1, h2, hreg⟩ := hp
  refine ⟨⟨?_, ?_, ?_, ?_, ?_⟩, ?_⟩
  · simp only [render, snprintf, hpb]
  · simp only [render, snprintf, hrs]
  · rw [length_render_mem]
    exact h1
  · rw [length_render_mem]
    exact h2
  · simp only [render, snprintf]
    rw [buffer_size_firewater] at hreg ⊢
    have hw : t.length % 256 < 256 := Nat.mod_lt _ (by decide)
    omega
  · have e1 : (render c1 t).mem = (snprintf c1.mem c1.pBuffer c1.RemainingSize t).1 := rfl
    have e2 : (render c2 t).mem = (snprintf c2.mem c1.pBuffer c1.RemainingSize t).1 := by
      rw [hpb, hrs]
      rfl
    rw [e1, e2]
    exact snprintf_sameText c1.mem c2.mem c1.pBuffer c1.RemainingSize t h1 h2
      (hreg.imp (fun h => Nat.le_of_eq h) (fun h => Nat.le_of_lt h)) hs

theorem channelLoop_paired (fmt : Nat → List Nat) (frame : Option (List Nat)) (count : Nat) :
    ∀ (n i : Nat) (c1 c2 : Cursor), c1.paired c2 → sameText c1.mem c2.mem →
      sameText (channelLoop fmt frame count n i c1).mem
        (channelLoop fmt frame count n i c2).mem := by
  intro n
  induction n with
  | zero => intro i c1 c2 _ hs; exact hs
  | succ n ih =>
    intro i c1 c2 hp hs
    have hrs : c1.RemainingSize = c2.RemainingSize := hp.2.1
    by_cases hstop : c1.RemainingSize ≤ 1
    · have hstop2 : c2.RemainingSize ≤ 1 := hrs ▸ hstop
      simp only [channelLoop, if_pos hstop, if_pos hstop2]
      exact hs
    · have hstop2 : ¬ c2.RemainingSize ≤ 1 := hrs ▸ hstop
      simp only [channelLoop, if_neg hstop, if_neg hstop2]
      obtain ⟨hp1, hs1⟩ := render_paired c1 c2 (channelText fmt frame count i) hp (Or.inr hs)
      exact ih (i + 1) _ _ hp1 hs1

theorem channelLoop_paired_fresh (fmt : Nat → List Nat) (frame : Option (List Nat))
    (count n i : Nat) (c1 c2 : Cursor) (hn : 1 ≤ n) (hp : c1.paired c2) (h0 : c1.pBuffer = 0)
    (h72 : c1.RemainingSize = 72) :
    sameText (channelLoop fmt frame count n i c1).mem
      (channelLoop fmt frame count n i c2).mem := by
  cases n with
  | zero => exact absurd hn (by decide)
  | succ m =>
    have hrs : c1.RemainingSize = c2.RemainingSize := hp.2.1
    have hstop : ¬ c1.RemainingSize ≤ 1 := by omega
    have hstop2 : ¬ c2.RemainingSize ≤ 1 := hrs ▸ hstop
    simp only [channelLoop, if_neg hstop, if_neg hstop2]
    obtain ⟨hp1, hs1⟩ := render_paired c1 c2 (channelText fmt frame count i) hp
      (Or.inl ⟨h0, by omega⟩)
    exact channelLoop_paired fmt frame count m (i + 1) _ _ hp1 hs1

theorem buildLine_sameText (fmt : Nat → List Nat) (m1 m2 : List Nat)
    (pfx : Option (List Nat)) (frame : Option (List Nat)) (n : Nat)
    (h1 : BUFFER_SIZE_FIREWATER ≤ m1.length) (h2 : BUFFER_SIZE_FIREWATER ≤ m2.length)
    (hr : rendersSomething pfx n) :
    sameText (buildLine fmt m1 pfx frame n).mem (buildLine fmt m2 pfx frame n).mem := by
  have hp0 : (initCursor m1).paired (initCursor m2) := ⟨rfl, rfl, h1, h2, Or.inl rfl⟩
  have fresh : (∀ m : List Nat, renderPrefix (initCursor m) pfx = initCursor m) → 1 ≤ n →
      sameText (buildLine fmt m1 pfx frame n).mem (buildLine fmt m2 pfx frame n).mem := by
    intro e hn
    simp only [buildLine, e]
    exact channelLoop_paired_fresh fmt frame n n 0 _ _ hn hp0 rfl rfl
  cases pfx with
  | none =>
    rcases hr with ⟨p, hp, _⟩ | hn
    · exact absurd hp (by simp)
    · exact fresh (fun _ => rfl) hn
  | some p =>
    by_cases hh : p.headD 0 ≠ 0
    · have e : ∀ m : List Nat, renderPrefix (initCursor m) (some p) = render (initCursor m) p := by
        intro m
        simp only [renderPrefix, if_pos hh]
      have hrem : (initCursor m1).RemainingSize ≠ 0 := by
        simp only [initCursor]
        decide
      obtain ⟨hp1, hs1⟩ := render_paired (initCursor m1) (initCursor m2) p hp0
        (Or.inl ⟨rfl, hrem⟩)
      simp only [buildLine, e]
      exact channelLoop_paired fmt frame n n 0 _ _ hp1 hs1
    · have e : ∀ m : List Nat, renderPrefix (initCursor m) (some p) = initCursor m := by
        intro m
        simp only [renderPrefix, if_neg hh]
      rcases hr with ⟨q, hq, hq0⟩ | hn
      · cases hq
        exact absurd hq0 hh
      · exact fresh e hn

/-- Whenever the structured encoder renders something, the bytes and the length it hands to
the transport are the same from any two text memories. -/
theorem descriptor_determined (fmt : Nat → List Nat) (s1 s2 : State)
    (pfx : Option (List Nat)) (frame : Option (List Nat)) (n : Nat)
    (h1 : BUFFER_SIZE_FIREWATER ≤ s1.FireWaterDMATransmitBuffer.length)
    (h2 : BUFFER_SIZE_FIREWATER ≤ s2.FireWaterDMATransmitBuffer.length)
    (hr : rendersSomething pfx n) :
    ∃ data size,
      (VOFA_Transmit_FireWater_Descriptor fmt s1 pfx frame n).events =
        [Event.transmit s1.SenderHUART data size] ∧
      (VOFA_Transmit_FireWater_Descriptor fmt s2 pfx frame n).events =
        [Event.transmit s2.SenderHUART data size] := by
  obtain ⟨hs, ht, _⟩ := sameText_strlen _ _
    (buildLine_sameText fmt s1.FireWaterDMATransmitBuffer s2.FireWaterDMATransmitBuffer pfx
      frame n h1 h2 hr)
  refine ⟨_, _, rfl, ?_⟩
  simp only [VOFA_Transmit_FireWater_Descriptor]
  rw [← hs]
  have hlt := (sameText_strlen _ _
    (buildLine_sameText fmt s1.FireWaterDMATransmitBuffer s2.FireWaterDMATransmitBuffer pfx
      frame n h1 h2 hr)).2.2
  have hmod : strlen (buildLine fmt s1.FireWaterDMATransmitBuffer pfx frame n).mem % 65536 =
      strlen (buildLine fmt s1.FireWaterDMATransmitBuffer pfx frame n).mem :=
    Nat.mod_eq_of_lt (by rw [buffer_size_firewater] at hlt; omega)
  rw [hmod, ht, hs]

/-- C11, at the failing input: handle 1 is set and an accepted free-form send has left
`hello` (or `bye`) and a newline in the text buffer.  The structured encoder called with
count 0 and a `NULL` or empty prefix writes nothing and transmits that earlier text: the two
runs have the same arguments and hand different bytes to the transport. -/
theorem descriptor_resends_stale_text :
    (VOFA_Transmit_FireWater_Descriptor fmtF
      (VOFA_Transmit_FireWater (VOFA_Init (initState []) (some 1)) HAL_DMA_StateTypeDef.READY
        (some (ascii "%s")) (RenderResult.ok (ascii "hello\n"))).st
      none (some [0x3F800000]) 0).events = [Event.transmit (some 1) (ascii "hello\n") 6] ∧
    (VOFA_Transmit_FireWater_Descriptor fmtF
      (VOFA_Transmit_FireWater (VOFA_Init (initState []) (some 1)) HAL_DMA_StateTypeDef.READY
        (some (ascii "%s")) (RenderResult.ok (ascii "bye\n"))).st
      none (some [0x3F800000]) 0).events = [Event.transmit (some 1) (ascii "bye\n") 4] ∧
    (VOFA_Transmit_FireWater_Descriptor fmtF
      (VOFA_Transmit_FireWater (VOFA_Init (initState []) (some 1)) HAL_DMA_StateTypeDef.READY
        (some (ascii "%s")) (RenderResult.ok (ascii "hello\n"))).st
      (some []) (some [0x3F800000]) 0).events =
      [Event.transmit (some 1) (ascii "hello\n") 6] ∧
    (VOFA_Transmit_FireWater_Descriptor fmtF
      (VOFA_Transmit_FireWater (VOFA_Init (initState []) (some 1)) HAL_DMA_StateTypeDef.READY
        (some (ascii "%s")) (RenderResult.ok (ascii "bye\n"))).st
      (some []) (some [0x3F800000]) 0).events = [Event.transmit (some 1) (ascii "bye\n") 4] := by
  refine ⟨?_, ?_, ?_, ?_⟩ <;> decide

/-! ## Sending twice -/

theorem justFloat_rejected (s : State) (dma : HAL_DMA_StateTypeDef)
    (frame : Option (List Nat)) (n : Nat)
    (h : s.SenderHUART = none ∨ frame = none ∨ n = 0 ∨ n > MAX_CHANNELS) :
    VOFA_Transmit_JustFloat s dma frame n = { ret := 0, st := s, events := [] } := by
  cases hs : s.SenderHUART with
  | none => simp only [VOFA_Transmit_JustFloat, hs]
  | some hh =>
    cases frame with
    | none => simp only [VOFA_Transmit_JustFloat, hs]
    | some fr =>
      have hc : n = 0 ∨ n > MAX_CHANNELS := by
        rcases h with h | h | h | h
        · rw [hs] at h
          exact absurd h (by simp)
        · exact absurd h (by simp)
        · exact Or.inl h
        · exact Or.inr h
      simp only [VOFA_Transmit_JustFloat, hs, if_pos hc]

theorem length_vsnprintf (mem : List Nat) (size : Nat) (r : RenderResult) :
    (vsnprintf mem size r).1.length = mem.length := by
  simp only [vsnprintf]
  split
  · rfl
  · exact length_writeAt _ _ _

/-- The bytes an accepted free-form send takes from the text memory are the rendered text. -/
theorem fireWater_accepted_data (mem : List Nat) (r : RenderResult)
    (hmem : BUFFER_SIZE_FIREWATER ≤ mem.length) (h0 : 0 ≤ r.ret)
    (h72 : r.ret < (BUFFER_SIZE_FIREWATER : Int)) :
    (vsnprintf mem BUFFER_SIZE_FIREWATER r).1.take (r.ret.toNat % 65536) = r.text ∧
      r.ret.toNat % 65536 = r.ret.toNat := by
  obtain ⟨text, rfl⟩ := (ret_nonneg_iff r).mp h0
  rw [buffer_size_firewater] at hmem
  have hlen : text.length < 72 := by
    simp only [RenderResult.ret, buffer_size_firewater] at h72
    omega
  have hsz : BUFFER_SIZE_FIREWATER ≠ 0 := by decide
  have htk : text.take (BUFFER_SIZE_FIREWATER - 1) = text :=
    List.take_of_length_le (by rw [buffer_size_firewater]; omega)
  have hw : (writeAt mem 0 (text ++ [0])).take text.length = text := by
    rw [writeAt_eq _ _ _ (by simp only [List.length_append, List.length_cons, List.length_nil]; omega)]
    simp
  have hmod : text.length % 65536 = text.length := Nat.mod_eq_of_lt (by omega)
  simp only [vsnprintf, if_neg hsz, htk, RenderResult.text, RenderResult.ret,
    Int.toNat_ofNat, hmod, hw, and_self]

theorem buildLine_of_nothing (fmt : Nat → List Nat) (mem : List Nat)
    (pfx : Option (List Nat)) (frame : Option (List Nat)) (n : Nat)
    (h : ¬ rendersSomething pfx n) : buildLine fmt mem pfx frame n = initCursor mem := by
  have hn : n = 0 := by
    by_contra hc
    exact h (Or.inr (by omega))
  subst hn
  cases pfx with
  | none => rfl
  | some p =>
    have hh : ¬ p.headD 0 ≠ 0 := fun hc => h (Or.inl ⟨p, rfl, hc⟩)
    simp only [buildLine, channelLoop, renderPrefix, if_neg hh]

theorem length_channelLoop_mem (fmt : Nat → List Nat) (frame : Option (List Nat))
    (count : Nat) : ∀ (n i : Nat) (c : Cursor),
      (channelLoop fmt frame count n i c).mem.length = c.mem.length := by
  intro n
  induction n with
  | zero => intro i c; rfl
  | succ n ih =>
    intro i c
    unfold channelLoop
    split
    · rfl
    · rw [ih, length_render_mem]

theorem length_buildLine_mem (fmt : Nat → List Nat) (mem : List Nat)
    (pfx : Option (List Nat)) (frame : Option (List Nat)) (n : Nat) :
    (buildLine fmt mem pfx frame n).mem.length = mem.length := by
  unfold buildLine
  rw [length_channelLoop_mem]
  cases pfx with
  | none => rfl
  | some p =>
    simp only [renderPrefix]
    split
    · rw [length_render_mem]
      rfl
    · rfl

theorem justFloat_twice (s : State) (frame : Option (List Nat)) (n : Nat)
    (hbuf : s.JustFloatDMATransmitBuffer.length = 44)
    (hfr : ∀ fr, frame = some fr → n ≤ fr.length) :
    (VOFA_Transmit_JustFloat (VOFA_Transmit_JustFloat s HAL_DMA_StateTypeDef.READY frame n).st
        HAL_DMA_StateTypeDef.READY frame n).ret =
      (VOFA_Transmit_JustFloat s HAL_DMA_StateTypeDef.READY frame n).ret ∧
    (VOFA_Transmit_JustFloat (VOFA_Transmit_JustFloat s HAL_DMA_StateTypeDef.READY frame n).st
        HAL_DMA_StateTypeDef.READY frame n).events =
      (VOFA_Transmit_JustFloat s HAL_DMA_StateTypeDef.READY frame n).events := by
  by_cases hrej : s.SenderHUART = none ∨ frame = none ∨ n = 0 ∨ n > MAX_CHANNELS
  · have e := justFloat_rejected s HAL_DMA_StateTypeDef.READY frame n hrej
    rw [e]
    simp only [e, and_self]
  · have hm : MAX_CHANNELS = 10 := rfl
    rw [hm] at hrej
    cases hs : s.SenderHUART with
    | none => exact absurd (Or.inl hs) hrej
    | some h =>
      cases frame with
      | none => exact absurd (Or.inr (Or.inl rfl)) hrej
      | some fr =>
        have h1 : 1 ≤ n := by omega
        have h10 : n ≤ 10 := by omega
        have hn := hfr fr rfl
        obtain ⟨r1, e1, hs1, hb1, _⟩ := justFloat_accepted s h fr n hbuf hs h1 h10 hn
        obtain ⟨r2, e2, _⟩ := justFloat_accepted
          (VOFA_Transmit_JustFloat s HAL_DMA_StateTypeDef.READY (some fr) n).st h fr n hb1
          (by rw [hs1, hs]) h1 h10 hn
        rw [r1, r2, e1, e2]
        exact ⟨rfl, rfl⟩

theorem fireWater_twice (s : State) (format : Option (List Nat)) (r : RenderResult)
    (hmem : BUFFER_SIZE_FIREWATER ≤ s.FireWaterDMATransmitBuffer.length) :
    (VOFA_Transmit_FireWater (VOFA_Transmit_FireWater s HAL_DMA_StateTypeDef.READY format r).st
        HAL_DMA_StateTypeDef.READY format r).ret =
      (VOFA_Transmit_FireWater s HAL_DMA_StateTypeDef.READY format r).ret ∧
    (VOFA_Transmit_FireWater (VOFA_Transmit_FireWater s HAL_DMA_StateTypeDef.READY format r).st
        HAL_DMA_StateTypeDef.READY format r).events =
      (VOFA_Transmit_FireWater s HAL_DMA_StateTypeDef.READY format r).events := by
  cases hs : s.SenderHUART with
  | none =>
    have e := fireWater_no_handle s HAL_DMA_StateTypeDef.READY format r hs
    rw [e]
    simp only [e, and_self]
  | some h =>
    cases format with
    | none =>
      have e := fireWater_no_format s HAL_DMA_StateTypeDef.READY r
      rw [e]
      simp only [e, and_self]
    | some f =>
      by_cases hf : f.headD 0 = 0
      · have e := fireWater_empty_format s HAL_DMA_StateTypeDef.READY f r hf
        rw [e]
        simp only [e, and_self]
      · by_cases hn : r.ret < 0 ∨ r.ret ≥ (BUFFER_SIZE_FIREWATER : Int)
        · have e := fireWater_overflow s h f r hs hf hn
          rw [e]
          have e2 := fireWater_overflow
            { s with FireWaterDMATransmitBuffer :=
              (vsnprintf s.FireWaterDMATransmitBuffer BUFFER_SIZE_FIREWATER r).1 } h f r hs hf hn
          simp only [e2, and_self]
        · have e := fireWater_accepted s h f r hs hf hn
          have e2 := fireWater_accepted
            { s with FireWaterDMATransmitBuffer :=
              (vsnprintf s.FireWaterDMATransmitBuffer BUFFER_SIZE_FIREWATER r).1 } h f r hs hf hn
          obtain ⟨d1, m1⟩ := fireWater_accepted_data s.FireWaterDMATransmitBuffer r hmem
            (by omega) (by omega)
          obtain ⟨d2, _⟩ := fireWater_accepted_data
            (vsnprintf s.FireWaterDMATransmitBuffer BUFFER_SIZE_FIREWATER r).1 r
            (by rw [length_vsnprintf]; exact hmem) (by omega) (by omega)
          rw [e]
          simp only [e2, d1, d2, and_self]

theorem descriptor_twice (fmt : Nat → List Nat) (s : State) (pfx : Option (List Nat))
    (frame : Option (List Nat)) (n : Nat)
    (hmem : BUFFER_SIZE_FIREWATER ≤ s.FireWaterDMATransmitBuffer.length) :
    (VOFA_Transmit_FireWater_Descriptor fmt
        (VOFA_Transmit_FireWater_Descriptor fmt s pfx frame n).st pfx frame n).ret =
      (VOFA_Transmit_FireWater_Descriptor fmt s pfx frame n).ret ∧
    (VOFA_Transmit_FireWater_Descriptor fmt
        (VOFA_Transmit_FireWater_Descriptor fmt s pfx frame n).st pfx frame n).events =
      (VOFA_Transmit_FireWater_Descriptor fmt s pfx frame n).events := by
  refine ⟨rfl, ?_⟩
  by_cases hr : rendersSomething pfx n
  · have hmem2 : BUFFER_SIZE_FIREWATER ≤
        (VOFA_Transmit_FireWater_Descriptor fmt s pfx frame n).st.FireWaterDMATransmitBuffer.length := by
      simp only [VOFA_Transmit_FireWater_Descriptor, length_buildLine_mem]
      exact hmem
    obtain ⟨data, size, e1, e2⟩ := descriptor_determined fmt s
      (VOFA_Transmit_FireWater_Descriptor fmt s pfx frame n).st pfx frame n hmem hmem2 hr
    rw [e2, e1]
    rfl
  · have hb := buildLine_of_nothing fmt s.FireWaterDMATransmitBuffer pfx frame n hr
    have hst : (VOFA_Transmit_FireWater_Descriptor fmt s pfx frame n).st = s := by
      simp only [VOFA_Transmit_FireWater_Descriptor, hb, initCursor]
    rw [hst]

/-- C12: sending twice in succession with identical arguments, the transport reporting ready
both times, gives the same return value and the same HAL calls, so byte-identical content of
identical length.  It holds for the binary encoder (the array holding at least `count` values),
the free-form encoder (every template and formatter result) and the structured encoder (every
prefix, array and count). -/
theorem sends_are_idempotent (fmt : Nat → List Nat) (s : State) (hwf : s.wf) :
    (∀ (frame : Option (List Nat)) (n : Nat), (∀ fr, frame = some fr → n ≤ fr.length) →
      (VOFA_Transmit_JustFloat
          (VOFA_Transmit_JustFloat s HAL_DMA_StateTypeDef.READY frame n).st
          HAL_DMA_StateTypeDef.READY frame n).ret =
        (VOFA_Transmit_JustFloat s HAL_DMA_StateTypeDef.READY frame n).ret ∧
      (VOFA_Transmit_JustFloat
          (VOFA_Transmit_JustFloat s HAL_DMA_StateTypeDef.READY frame n).st
          HAL_DMA_StateTypeDef.READY frame n).events =
        (VOFA_Transmit_JustFloat s HAL_DMA_StateTypeDef.READY frame n).events) ∧
    (∀ (format : Option (List Nat)) (r : RenderResult),
      (VOFA_Transmit_FireWater
          (VOFA_Transmit_FireWater s HAL_DMA_StateTypeDef.READY format r).st
          HAL_DMA_StateTypeDef.READY format r).ret =
        (VOFA_Transmit_FireWater s HAL_DMA_StateTypeDef.READY format r).ret ∧
      (VOFA_Transmit_FireWater
          (VOFA_Transmit_FireWater s HAL_DMA_StateTypeDef.READY format r).st
          HAL_DMA_StateTypeDef.READY format r).events =
        (VOFA_Transmit_FireWater s HAL_DMA_StateTypeDef.READY format r).events) ∧
    (∀ (pfx : Option (List Nat)) (frame : Option (List Nat)) (n : Nat),
      (VOFA_Transmit_FireWater_Descriptor fmt
          (VOFA_Transmit_FireWater_Descriptor fmt s pfx frame n).st pfx frame n).ret =
        (VOFA_Transmit_FireWater_Descriptor fmt s pfx frame n).ret ∧
      (VOFA_Transmit_FireWater_Descriptor fmt
          (VOFA_Transmit_FireWater_Descriptor fmt s pfx frame n).st pfx frame n).events =
        (VOFA_Transmit_FireWater_Descriptor fmt s pfx frame n).events) :=
  ⟨fun frame n hfr => justFloat_twice s frame n hwf.1 hfr,
    fun format r => fireWater_twice s format r hwf.2,
    fun pfx frame n => descriptor_twice fmt s pfx frame n hwf.2⟩

/-- C12, instance: handle 7 set, then each encoder called twice: three binary channels, the
free-form expansion `a:1`, and the structured line of prefix `ch:` with three values. -/
theorem sends_are_idempotent_witness :
    (VOFA_Transmit_JustFloat
        (VOFA_Transmit_JustFloat (VOFA_Init (initState []) (some 7)) HAL_DMA_StateTypeDef.READY
          (some [0x3F800000, 0x40200000, 0xC0500000]) 3).st
        HAL_DMA_StateTypeDef.READY (some [0x3F800000, 0x40200000, 0xC0500000]) 3).events =
      (VOFA_Transmit_JustFloat (VOFA_Init (initState []) (some 7)) HAL_DMA_StateTypeDef.READY
        (some [0x3F800000, 0x40200000, 0xC0500000]) 3).events ∧
    (VOFA_Transmit_FireWater
        (VOFA_Transmit_FireWater (VOFA_Init (initState []) (some 7)) HAL_DMA_StateTypeDef.READY
          (some (ascii "a:%d\n")) (RenderResult.ok (ascii "a:1\n"))).st
        HAL_DMA_StateTypeDef.READY (some (ascii "a:%d\n"))
        (RenderResult.ok (ascii "a:1\n"))).events =
      (VOFA_Transmit_FireWater (VOFA_Init (initState []) (some 7)) HAL_DMA_StateTypeDef.READY
        (some (ascii "a:%d\n")) (RenderResult.ok (ascii "a:1\n"))).events ∧
    (VOFA_Transmit_FireWater_Descriptor fmtF
        (VOFA_Transmit_FireWater_Descriptor fmtF (VOFA_Init (initState []) (some 7))
          (some (ascii "ch:")) (some [0x3F800000, 0x40200000, 0xC0500000]) 3).st
        (some (ascii "ch:")) (some [0x3F800000, 0x40200000, 0xC0500000]) 3).events =
      (VOFA_Transmit_FireWater_Descriptor fmtF (VOFA_Init (initState []) (some 7))
        (some (ascii "ch:")) (some [0x3F800000, 0x40200000, 0xC0500000]) 3).events :=
  ⟨((sends_are_idempotent fmtF (VOFA_Init (initState []) (some 7)) (by decide)).1
      (some [0x3F800000, 0x40200000, 0xC0500000]) 3
      (fun fr e => by cases e; decide)).2,
    ((sends_are_idempotent fmtF (VOFA_Init (initState []) (some 7)) (by decide)).2.1
      (some (ascii "a:%d\n")) (RenderResult.ok (ascii "a:1\n"))).2,
    ((sends_are_idempotent fmtF (VOFA_Init (initState []) (some 7)) (by decide)).2.2
      (some (ascii "ch:")) (some [0x3F800000, 0x40200000, 0xC0500000]) 3).2⟩

/-! ## Graceful truncation and its limit -/

/-- A rendering step whose text does not fit: the region is filled up to the last byte of the
array, which gets the zero, and the cursor leaves the array or stops at its end. -/
theorem render_overflows (c : Cursor) (t : List Nat)
    (hreg : c.pBuffer + c.RemainingSize = 72) (hmem : 72 ≤ c.mem.length)
    (h1 : 1 ≤ c.RemainingSize) (hbig : c.RemainingSize ≤ t.length) (h256 : t.length < 256) :
    (render c t).mem =
        c.mem.take c.pBuffer ++ t.take (c.RemainingSize - 1) ++ 0 :: c.mem.drop 72 ∧
      (render c t).pBuffer = c.pBuffer + t.length := by
  have h0 : c.RemainingSize ≠ 0 := by omega
  have hw : t.length % 256 = t.length := Nat.mod_eq_of_lt h256
  have hl : (t.take (c.RemainingSize - 1) ++ [0]).length = c.RemainingSize := by
    simp only [List.length_append, List.length_take, List.length_cons, List.length_nil]
    omega
  refine ⟨?_, ?_⟩
  · simp only [render, snprintf, if_neg h0]
    rw [writeAt_eq _ _ _ (by rw [hl]; omega), hl, hreg]
    simp [List.append_assoc]
  · simp only [render, snprintf, hw]

theorem render_outside (c : Cursor) (t : List Nat) (h : 72 ≤ c.pBuffer) :
    (render c t).mem.take 72 = c.mem.take 72 ∧ 72 ≤ (render c t).pBuffer := by
  refine ⟨?_, ?_⟩
  · simp only [render, snprintf]
    split
    · rfl
    · exact take_writeAt_of_le _ _ _ _ h
  · simp only [render, snprintf]
    omega

theorem channelLoop_outside (fmt : Nat → List Nat) (frame : Option (List Nat)) (count : Nat) :
    ∀ (n i : Nat) (c : Cursor), 72 ≤ c.pBuffer →
      (channelLoop fmt frame count n i c).mem.take 72 = c.mem.take 72 := by
  intro n
  induction n with
  | zero => intro i c _; rfl
  | succ n ih =>
    intro i c hc
    unfold channelLoop
    split
    · rfl
    · obtain ⟨e, hp⟩ := render_outside c (channelText fmt frame count i) hc
      rw [ih (i + 1) _ hp, e]

theorem eq_of_take_72 (m x : List Nat) (h : m.take 72 = x ++ [0]) :
    m = x ++ 0 :: m.drop 72 := by
  have e := List.take_append_drop 72 m
  rw [h] at e
  simpa [List.append_assoc] using e.symm

theorem lineText_cons (fmt : Nat → List Nat) (v : Nat) (vs : List Nat) :
    lineText fmt (v :: vs) = (fmt v ++ [if vs = [] then 10 else 44]) ++ lineText fmt vs := by
  cases vs with
  | nil => simp [lineText]
  | cons w ws => simp [lineText]

theorem channelText_of_drop (fmt : Nat → List Nat) (frame : List Nat) (i v : Nat)
    (vs : List Nat) (hdrop : frame.drop i = v :: vs) :
    channelText fmt (some frame) frame.length i = fmt v ++ [if vs = [] then 10 else 44] := by
  have hread := readFloat_of_drop frame i v vs hdrop
  have hlen : (v :: vs).length = frame.length - i := by
    rw [← hdrop, List.length_drop]
  cases vs with
  | nil =>
    have hi : i = frame.length - 1 := by
      simp only [List.length_cons, List.length_nil] at hlen
      omega
    simp only [channelText, if_pos hi, hread, if_true]
  | cons w ws =>
    have hi : ¬ i = frame.length - 1 := by
      simp only [List.length_cons] at hlen
      omega
    simp only [channelText, if_neg hi, hread, reduceCtorEq, if_false]

theorem drop_succ_of_drop (frame : List Nat) (i v : Nat) (vs : List Nat)
    (hdrop : frame.drop i = v :: vs) : frame.drop (i + 1) = vs := by
  have : frame.drop (i + 1) = (frame.drop i).drop 1 := by
    rw [List.drop_drop, Nat.add_comm]
  rw [this, hdrop]
  rfl

theorem take71_append (w t r : List Nat) (hw : w.length ≤ 71)
    (ht : 71 - w.length ≤ t.length) :
    (w ++ (t ++ r)).take 71 = w ++ t.take (71 - w.length) := by
  rw [List.take_append_eq_append_take, List.take_of_length_le hw,
    List.take_append_of_le_length ht]

/-- The loop over the channels from a cursor inside the array, every rendering shorter than
256 characters: the array ends up holding the first 71 characters of what was before the
cursor followed by the rest of the line, then a zero. -/
theorem channelLoop_truncates (fmt : Nat → List Nat) (frame : List Nat) :
    ∀ (vs : List Nat) (i : Nat) (c : Cursor), frame.drop i = vs → 72 ≤ c.mem.length →
      c.pBuffer + c.RemainingSize = 72 → c.pBuffer ≤ 71 →
      (∀ v ∈ vs, (fmt v).length + 1 < 256) →
      ((vs ≠ [] ∧ c.pBuffer = 0) ∨ ∃ rest, c.mem = c.mem.take c.pBuffer ++ 0 :: rest) →
      ∃ rest, (channelLoop fmt (some frame) frame.length vs.length i c).mem =
        (c.mem.take c.pBuffer ++ lineText fmt vs).take 71 ++ 0 :: rest := by
  intro vs
  induction vs with
  | nil =>
    intro i c _ hlen _ hle _ hterm
    have hW : (c.mem.take c.pBuffer).length ≤ 71 := by
      rw [List.length_take]
      omega
    rcases hterm with ⟨hne, _⟩ | ⟨rest, hrest⟩
    · exact absurd rfl hne
    · refine ⟨rest, ?_⟩
      simp only [List.length_nil, channelLoop, lineText, List.append_nil]
      rw [List.take_of_length_le hW]
      exact hrest
  | cons v vs ih =>
    intro i c hdrop hlen hreg hle hv hterm
    have hWl : (c.mem.take c.pBuffer).length = c.pBuffer := by
      rw [List.length_take]
      omega
    have htext := channelText_of_drop fmt frame i v vs hdrop
    have hline := lineText_cons fmt v vs
    have htl : (fmt v ++ [if vs = [] then 10 else 44]).length = (fmt v).length + 1 := by
      simp
    have h256 := hv v (List.mem_cons_self v vs)
    by_cases hstop : c.RemainingSize ≤ 1
    · rcases hterm with ⟨_, h0⟩ | ⟨rest, hrest⟩
      · omega
      · refine ⟨rest, ?_⟩
        simp only [List.length_cons, channelLoop, if_pos hstop]
        rw [List.take_left' (by rw [hWl]; omega)]
        exact hrest
    · have hstep : channelLoop fmt (some frame) frame.length (v :: vs).length i c =
          channelLoop fmt (some frame) frame.length vs.length (i + 1)
            (render c (fmt v ++ [if vs = [] then 10 else 44])) := by
        simp only [List.length_cons, channelLoop, if_neg hstop, htext]
      rw [hstep, hline]
      by_cases hfit : (fmt v ++ [if vs = [] then 10 else 44]).length < c.RemainingSize
      · obtain ⟨hm, hp, hr⟩ := render_fits c (fmt v ++ [if vs = [] then 10 else 44])
          (by omega) hfit (by omega)
        have hlen1 := length_render_mem c (fmt v ++ [if vs = [] then 10 else 44])
        have htake : (render c (fmt v ++ [if vs = [] then 10 else 44])).mem.take
            (render c (fmt v ++ [if vs = [] then 10 else 44])).pBuffer =
            c.mem.take c.pBuffer ++ (fmt v ++ [if vs = [] then 10 else 44]) := by
          rw [hm, hp]
          apply List.take_left'
          rw [List.length_append, hWl]
        obtain ⟨rest, hrest⟩ := ih (i + 1) (render c (fmt v ++ [if vs = [] then 10 else 44]))
          (drop_succ_of_drop frame i v vs hdrop) (by omega) (by omega) (by omega)
          (fun u hu => hv u (List.mem_cons_of_mem v hu))
          (Or.inr ⟨c.mem.drop (c.pBuffer +
              ((fmt v ++ [if vs = [] then 10 else 44]).length + 1)), by
            rw [htake]
            exact hm⟩)
        refine ⟨rest, ?_⟩
        rw [hrest, htake, List.append_assoc]
      · obtain ⟨hm, hp⟩ := render_overflows c (fmt v ++ [if vs = [] then 10 else 44]) hreg hlen
          (by omega) (by omega) (by omega)
        have hout := channelLoop_outside fmt (some frame) frame.length vs.length (i + 1)
          (render c (fmt v ++ [if vs = [] then 10 else 44])) (by omega)
        have hx : c.RemainingSize - 1 = 71 - (c.mem.take c.pBuffer).length := by
          rw [hWl]
          omega
        have h72 : (render c (fmt v ++ [if vs = [] then 10 else 44])).mem.take 72 =
            (c.mem.take c.pBuffer ++
              (fmt v ++ [if vs = [] then 10 else 44]).take (c.RemainingSize - 1)) ++ [0] := by
          rw [hm]
          have hl71 : (c.mem.take c.pBuffer ++
              (fmt v ++ [if vs = [] then 10 else 44]).take (c.RemainingSize - 1)).length = 71 := by
            rw [List.length_append, hWl, List.length_take]
            omega
          rw [List.take_append_eq_append_take, hl71, List.take_of_length_le (by omega)]
          rfl
        rw [h72] at hout
        refine ⟨(channelLoop fmt (some frame) frame.length vs.length (i + 1)
          (render c (fmt v ++ [if vs = [] then 10 else 44]))).mem.drop 72, ?_⟩
        rw [take71_append (c.mem.take c.pBuffer)
          (fmt v ++ [if vs = [] then 10 else 44]) (lineText fmt vs) (by omega) (by omega), ← hx]
        exact eq_of_take_72 _ _ hout

theorem renderPrefix_of_empty (c : Cursor) (pfx : Option (List Nat)) (h : pfxText pfx = []) :
    renderPrefix c pfx = c := by
  cases pfx with
  | none => rfl
  | some p =>
    simp only [pfxText] at h
    subst h
    rfl

/-- What the line builder leaves in the array when the prefix and every rendering are shorter
than 256 characters: the first 71 characters of the intended line, then a zero. -/
theorem buildLine_truncates (fmt : Nat → List Nat) (mem : List Nat)
    (pfx : Option (List Nat)) (frame : List Nat) (hlen : 72 ≤ mem.length) (hn : frame ≠ [])
    (hp0 : 0 ∉ pfxText pfx) (hpl : (pfxText pfx).length < 256)
    (hvl : ∀ v ∈ frame, (fmt v).length + 1 < 256) :
    ∃ rest, (buildLine fmt mem pfx (some frame) frame.length).mem =
      (pfxText pfx ++ lineText fmt frame).take 71 ++ 0 :: rest := by
  have hc0 : (initCursor mem).pBuffer = 0 := rfl
  have hc1 : (initCursor mem).RemainingSize = 72 := rfl
  have hc2 : (initCursor mem).mem = mem := rfl
  by_cases hemp : pfxText pfx = []
  · obtain ⟨rest, hrest⟩ := channelLoop_truncates fmt frame frame 0 (initCursor mem) rfl hlen rfl
      (Nat.zero_le 71) hvl (Or.inl ⟨hn, rfl⟩)
    refine ⟨rest, ?_⟩
    rw [hc0, List.take_zero, List.nil_append] at hrest
    simp only [buildLine, renderPrefix_of_empty _ pfx hemp, hemp, List.nil_append]
    exact hrest
  · by_cases hshort : (pfxText pfx).length < 72
    · obtain ⟨hpb, hr, hl, ht, hrest⟩ := renderPrefix_fits mem pfx hlen hp0 hshort
      obtain ⟨rest1, hrest1⟩ := hrest hemp
      obtain ⟨rest, hfin⟩ := channelLoop_truncates fmt frame frame 0
        (renderPrefix (initCursor mem) pfx) rfl (by rw [hl]; exact hlen)
        (by rw [hpb, hr]; omega) (by rw [hpb]; omega) hvl
        (Or.inr ⟨rest1, by rw [hpb, ht]; exact hrest1⟩)
      rw [hpb, ht] at hfin
      exact ⟨rest, hfin⟩
    · cases pfx with
      | none => exact absurd rfl hemp
      | some p =>
        simp only [pfxText] at hemp hshort hp0 hpl ⊢
        have hhead : p.headD 0 ≠ 0 := by
          cases p with
          | nil => exact absurd rfl hemp
          | cons a t =>
            intro e
            exact hp0 (by simp only [List.headD_cons] at e; rw [e]; exact List.mem_cons_self 0 t)
        have hx : renderPrefix (initCursor mem) (some p) = render (initCursor mem) p := by
          simp only [renderPrefix, if_pos hhead]
        obtain ⟨hm, hp⟩ := render_overflows (initCursor mem) p rfl hlen
          (by rw [hc1]; decide) (by rw [hc1]; omega) hpl
        rw [hc0, hc1, hc2, List.take_zero, List.nil_append] at hm
        rw [hc0] at hp
        have hout := channelLoop_outside fmt (some frame) frame.length frame.length 0
          (render (initCursor mem) p) (by rw [hp]; omega)
        have h72 : (render (initCursor mem) p).mem.take 72 = p.take 71 ++ [0] := by
          rw [hm]
          have hl71 : (p.take (72 - 1)).length = 71 := by
            rw [List.length_take]
            omega
          rw [List.take_append_eq_append_take, hl71, List.take_of_length_le (by omega)]
          rfl
        rw [h72] at hout
        refine ⟨(channelLoop fmt (some frame) frame.length frame.length 0
          (render (initCursor mem) p)).mem.drop 72, ?_⟩
        rw [List.take_append_of_le_length (by omega)]
        simp only [buildLine, hx]
        exact eq_of_take_72 _ _ hout

/-- Graceful truncation, within the range of the 8-bit counter: for a prefix and renderings
shorter than 256 characters, none holding a zero byte, and at least one channel, the
structured encoder transmits exactly the first `min 71 (length of the line)` characters of the
intended line, whatever the text memory held. -/
theorem descriptor_truncates_gracefully (fmt : Nat → List Nat) (s : State)
    (pfx : Option (List Nat)) (frame : List Nat) (hwf : s.wf) (hn : frame ≠ [])
    (hp0 : 0 ∉ pfxText pfx) (hv0 : ∀ v ∈ frame, 0 ∉ fmt v)
    (hpl : (pfxText pfx).length < 256) (hvl : ∀ v ∈ frame, (fmt v).length + 1 < 256) :
    (VOFA_Transmit_FireWater_Descriptor fmt s pfx (some frame) frame.length).events =
      [Event.transmit s.SenderHUART ((pfxText pfx ++ lineText fmt frame).take 71)
        (min 71 (pfxText pfx ++ lineText fmt frame).length)] := by
  obtain ⟨rest, hrest⟩ := buildLine_truncates fmt s.FireWaterDMATransmitBuffer pfx frame hwf.2
    hn hp0 hpl hvl
  have hz : 0 ∉ (pfxText pfx ++ lineText fmt frame).take 71 := by
    intro hmem
    have := List.mem_of_mem_take hmem
    rw [List.mem_append] at this
    rcases this with h | h
    · exact hp0 h
    · exact zero_not_mem_lineText fmt frame hv0 h
  have hs := strlen_append_zero _ rest hz
  have hl : ((pfxText pfx ++ lineText fmt frame).take 71).length =
      min 71 (pfxText pfx ++ lineText fmt frame).length := List.length_take _ _
  have hmod : ((pfxText pfx ++ lineText fmt frame).take 71).length % 65536 =
      ((pfxText pfx ++ lineText fmt frame).take 71).length :=
    Nat.mod_eq_of_lt (by rw [hl]; omega)
  simp only [VOFA_Transmit_FireWater_Descriptor, hrest, hs, hmod]
  rw [List.take_left' rfl, hl]

set_option maxRecDepth 8192 in
/-- C14, at the failing input: a prefix of 256 letters `a` and the single value `0.0`.  The
intended line starts with 71 letters `a`; the prefix stage stores them, but `snprintf` returns
256, which the `uint8_t WrittenSize` holds as 0, so the cursor stays at the start of the array
with 72 bytes remaining and the value is rendered over the prefix: the transmitted text is
`0.000000` and a newline, 9 bytes, not an initial segment of the line. -/
theorem descriptor_long_prefix_sends_wrong_text :
    (pfxText (some (List.replicate 256 97)) ++ lineText fmtF [0]).take 71 =
      List.replicate 71 97 ∧
    (renderPrefix (initCursor (initState []).FireWaterDMATransmitBuffer)
      (some (List.replicate 256 97))).WrittenSize = 0 ∧
    (renderPrefix (initCursor (initState []).FireWaterDMATransmitBuffer)
      (some (List.replicate 256 97))).pBuffer = 0 ∧
    (renderPrefix (initCursor (initState []).FireWaterDMATransmitBuffer)
      (some (List.replicate 256 97))).RemainingSize = 72 ∧
    (VOFA_Transmit_FireWater_Descriptor fmtF (initState []) (some (List.replicate 256 97))
      (some [0]) 1).events = [Event.transmit none (ascii "0.000000\n") 9] := by
  refine ⟨?_, ?_, ?_, ?_, ?_⟩ <;> decide

end Vofa
